import Mathlib

/-!
Verification of the response-extraction, prompt-building, error-handling and
session-state behaviour of `streamlit_app.py` (Lithuanian Market Product
Analyzer).  Strings are modelled as `List Char`; JSON values as the inductive
`Json` below; `json.loads` as a fuel-indexed recursive-descent parser over the
JSON grammar (numbers are modelled as integers: none of the verified
properties depends on fractional numerals); the two concrete regular
expressions used by `display_results` are modelled directly by functions
implementing their leftmost-greedy backtracking semantics.
-/
/-! Characters and digits. -/
/-- Decimal digit to character, as produced by the Python `str` function on integers. -/
def digitChar (d : Nat) : Char :=
  if d = 0 then '0' else if d = 1 then '1' else if d = 2 then '2'
  else if d = 3 then '3' else if d = 4 then '4' else if d = 5 then '5'
  else if d = 6 then '6' else if d = 7 then '7' else if d = 8 then '8' else '9'

/-- Character to decimal digit value. -/
def digitVal (c : Char) : Nat :=
  if c = '0' then 0 else if c = '1' then 1 else if c = '2' then 2
  else if c = '3' then 3 else if c = '4' then 4 else if c = '5' then 5
  else if c = '6' then 6 else if c = '7' then 7 else if c = '8' then 8
  else if c = '9' then 9 else 0

/-- Is the character a decimal digit. -/
def isDigitC (c : Char) : Bool :=
  c = '0' || c = '1' || c = '2' || c = '3' || c = '4' || c = '5' ||
  c = '6' || c = '7' || c = '8' || c = '9'

/-- Fuel-indexed worker for `natChars`: the number of digits never exceeds
the number itself, so fuel `m + 1` always suffices. -/
def natCharsGo : Nat → Nat → List Char
  | 0, _ => []
  | f + 1, m =>
    if m < 10 then [digitChar m]
    else natCharsGo f (m / 10) ++ [digitChar (m % 10)]

/-- Decimal representation of a natural number, as the Python `str` form. -/
def natChars (m : Nat) : List Char := natCharsGo (m + 1) m

/-- Decimal representation of an integer, as the Python `str` form. -/
def intChars : Int → List Char
  | .ofNat m => natChars m
  | .negSucc k => '-' :: natChars (k + 1)

/-- Value of a digit string read left to right. -/
def digitsVal (ds : List Char) : Nat :=
  ds.foldl (fun a c => 10 * a + digitVal c) 0

/-! The JSON data model, as decoded by the Python `json` module (numbers
restricted to integers). -/
inductive Json where
  | null : Json
  | bool (b : Bool) : Json
  | num (n : Int) : Json
  | str (s : List Char) : Json
  | arr (xs : List Json) : Json
  | obj (kvs : List (List Char × Json)) : Json

/-- First-match association lookup, the model of indexing a decoded JSON
object (decoded objects have distinct keys, so first match is the match). -/
def jLookup (kvs : List (List Char × Json)) (k : List Char) : Option Json :=
  match kvs with
  | [] => none
  | (k0, v) :: t => if k0 = k then some v else jLookup t k

/-! Compact JSON serialization (the `json.stringify` of the round-trip
property in the spec): `[`..`]` arrays, `\x7b`..`\x7d` objects, `"`-delimited strings,
no added whitespace. -/
mutual

def stringify : Json → List Char
  | .null => "null".toList
  | .bool true => "true".toList
  | .bool false => "false".toList
  | .num n => intChars n
  | .str s => '"' :: s ++ ['"']
  | .arr xs => '[' :: strList xs ++ [']']
  | .obj kvs => '\x7b' :: strMembers kvs ++ ['\x7d']

def strList : List Json → List Char
  | [] => []
  | [x] => stringify x
  | x :: y :: t => stringify x ++ ',' :: strList (y :: t)

def strMembers : List (List Char × Json) → List Char
  | [] => []
  | [(k, v)] => '"' :: k ++ '"' :: ':' :: stringify v
  | (k, v) :: m :: t => ('"' :: k ++ '"' :: ':' :: stringify v) ++ ',' :: strMembers (m :: t)

end

/- Fuel measure for the parser: one unit per value and per list element. -/
mutual

def jsize : Json → Nat
  | .arr xs => 1 + jsizeL xs
  | .obj kvs => 1 + jsizeKV kvs
  | _ => 1

def jsizeL : List Json → Nat
  | [] => 0
  | x :: t => 1 + jsize x + jsizeL t

def jsizeKV : List (List Char × Json) → Nat
  | [] => 0
  | (_, v) :: t => 1 + jsize v + jsizeKV t

end

/-! The parser: a shallow embedding of `json.loads`.  JSON whitespace is
space, tab, newline, carriage return.  Strings support the standard single
character escapes and `u`-escapes; numbers are integer literals (a leading
zero restriction is not modelled; the serializer never emits one). -/
/-- JSON grammar whitespace. -/
def isJWs (c : Char) : Bool := c = ' ' || c = '\t' || c = '\n' || c = '\r'

/-- Skip JSON whitespace. -/
def skipJWs (l : List Char) : List Char := l.dropWhile isJWs

/-- Single-character string escapes of the JSON grammar. -/
def escChar (c : Char) : Option Char :=
  if c = '"' then some '"'
  else if c = '\\' then some '\\'
  else if c = '/' then some '/'
  else if c = 'b' then some '\x08'
  else if c = 'f' then some '\x0c'
  else if c = 'n' then some '\n'
  else if c = 'r' then some '\r'
  else if c = 't' then some '\t'
  else none

/-- Hexadecimal digit value, for `u`-escapes. -/
def hexVal (c : Char) : Option Nat :=
  if isDigitC c then some (digitVal c)
  else if c = 'a' || c = 'A' then some 10
  else if c = 'b' || c = 'B' then some 11
  else if c = 'c' || c = 'C' then some 12
  else if c = 'd' || c = 'D' then some 13
  else if c = 'e' || c = 'E' then some 14
  else if c = 'f' || c = 'F' then some 15
  else none

/-- Parse the body of a string literal after the opening quote, up to and
consuming the closing quote. -/
def parseStrChars : List Char → Option (List Char × List Char)
  | [] => none
  | c :: r =>
    if c = '"' then some ([], r)
    else if c = '\\' then
      match r with
      | 'u' :: a :: b :: c2 :: d :: r2 =>
        match hexVal a, hexVal b, hexVal c2, hexVal d with
        | some ha, some hb, some hc, some hd =>
          (parseStrChars r2).map
            (fun p => (Char.ofNat (((ha * 16 + hb) * 16 + hc) * 16 + hd) :: p.1, p.2))
        | _, _, _, _ => none
      | e :: r2 =>
        match escChar e with
        | some c3 => (parseStrChars r2).map (fun p => (c3 :: p.1, p.2))
        | none => none
      | [] => none
    else (parseStrChars r).map (fun p => (c :: p.1, p.2))

/-- Maximal leading run of decimal digits. -/
def takeDigits : List Char → List Char × List Char
  | [] => ([], [])
  | c :: t =>
    if isDigitC c then
      let p := takeDigits t
      (c :: p.1, p.2)
    else ([], c :: t)

/-- Parse an integer numeral: optional minus sign and a nonempty digit run. -/
def parseNum (s : List Char) : Option (Json × List Char) :=
  match s with
  | '-' :: t =>
    match takeDigits t with
    | ([], _) => none
    | (ds, r) => some (.num (-(digitsVal ds : Int)), r)
  | _ =>
    match takeDigits s with
    | ([], _) => none
    | (ds, r) => some (.num (digitsVal ds), r)

mutual

/-- Parse one JSON value after skipping leading whitespace.  Fuel bounds the
nesting-and-element recursion; `loads` supplies more than enough. -/
def parseVal : Nat → List Char → Option (Json × List Char)
  | 0, _ => none
  | f + 1, s =>
    match skipJWs s with
    | '"' :: r => (parseStrChars r).map (fun p => (.str p.1, p.2))
    | '[' :: r =>
      if (skipJWs r).head? = some ']' then some (.arr [], (skipJWs r).tail)
      else (parseElems f (skipJWs r)).map (fun p => (.arr p.1, p.2))
    | '\x7b' :: r =>
      if (skipJWs r).head? = some '\x7d' then some (.obj [], (skipJWs r).tail)
      else (parseMembers f (skipJWs r)).map (fun p => (.obj p.1, p.2))
    | 't' :: 'r' :: 'u' :: 'e' :: r => some (.bool true, r)
    | 'f' :: 'a' :: 'l' :: 's' :: 'e' :: r => some (.bool false, r)
    | 'n' :: 'u' :: 'l' :: 'l' :: r => some (.null, r)
    | s2 => parseNum s2

/-- Parse a nonempty comma-separated element list up to and consuming the
closing bracket. -/
def parseElems : Nat → List Char → Option (List Json × List Char)
  | 0, _ => none
  | f + 1, s =>
    match parseVal f s with
    | none => none
    | some (v, r) =>
      match skipJWs r with
      | ',' :: r2 =>
        match parseElems f r2 with
        | some (vs, rr) => some (v :: vs, rr)
        | none => none
      | ']' :: r2 => some ([v], r2)
      | _ => none

/-- Parse a nonempty comma-separated member list up to and consuming the
closing brace. -/
def parseMembers : Nat → List Char → Option (List (List Char × Json) × List Char)
  | 0, _ => none
  | f + 1, s =>
    match skipJWs s with
    | '"' :: r =>
      match parseStrChars r with
      | none => none
      | some (k, r1) =>
        match skipJWs r1 with
        | ':' :: r2 =>
          match parseVal f r2 with
          | none => none
          | some (v, r3) =>
            match skipJWs r3 with
            | ',' :: r4 =>
              match parseMembers f r4 with
              | some (kvs, rr) => some ((k, v) :: kvs, rr)
              | none => none
            | '\x7d' :: r4 => some ([(k, v)], r4)
            | _ => none
        | _ => none
    | _ => none

end

/-- The model of `json.loads`: parse one value and require that only
whitespace remains. -/
def loads (s : List Char) : Option Json :=
  match parseVal (s.length + 1) s with
  | some (v, r) => if skipJWs r = [] then some v else none
  | none => none

/-! The first-pass pattern of `display_results` (line 258 of the source):
`(\[\s*\x7b.*\x7d\s*\]|\x7b\s*"products"\s*:\s*\[.*\]\s*\x7d)` with
`re.DOTALL`, used through `re.search`.  `re.search` returns the match at the
leftmost position where either alternative matches; at a position the first
alternative is preferred; `.*` is greedy, so the match extends to the last
closing delimiter (modulo the trailing `\s*`) that completes the pattern. -/
/-- Python regex whitespace `\s` over ASCII: space, tab, newline, carriage
return, vertical tab, form feed. -/
def isReWs (c : Char) : Bool :=
  c = ' ' || c = '\t' || c = '\n' || c = '\r' || c = '\x0b' || c = '\x0c'

/-- Greedy completion of a `.*` followed by `preC` `\s*` `lastC`: scanning the
reversed remainder, return the length of the longest prefix of the remainder
that ends with `preC`, then regex whitespace, then `lastC`. -/
def revClose (lastC preC : Char) : List Char → Option Nat
  | [] => none
  | c :: rest =>
    if c == lastC && (match rest.dropWhile isReWs with
                      | p :: _ => p == preC
                      | [] => false) then
      some (rest.length + 1)
    else revClose lastC preC rest

/-- Boolean test: `p` is a leading segment of `l`. -/
def pfxB : List Char → List Char → Bool
  | [], _ => true
  | _ :: _, [] => false
  | c :: p, d :: l => c == d && pfxB p l

/-- Boolean test: `p` occurs contiguously somewhere in `l`. -/
def subsegB : List Char → List Char → Bool
  | p, [] => pfxB p []
  | p, c :: t => pfxB p (c :: t) || subsegB p t

/-- Propositional contiguous-occurrence. -/
def subseg (p l : List Char) : Prop := ∃ s t, l = s ++ p ++ t

/-- The literal `"products"` (quotes included) required by the second
alternative. -/
def productsLit : List Char := "\"products\"".toList

/-- Greedy match of the first alternative
`\[\s*\x7b.*\x7d\s*\]` at the start of `s`: the matched text, if any. -/
def alt1Match (s : List Char) : Option (List Char) :=
  match s with
  | [] => none
  | c :: t =>
    if c = '[' then
      match t.dropWhile isReWs with
      | [] => none
      | c2 :: u =>
        if c2 = '\x7b' then
          match revClose ']' '\x7d' u.reverse with
          | some m => some ('[' :: t.takeWhile isReWs ++ '\x7b' :: u.take m)
          | none => none
        else none
    else none

/-- Greedy match of the second alternative
`\x7b\s*"products"\s*:\s*\[.*\]\s*\x7d` at the start of `s`. -/
def alt2Match (s : List Char) : Option (List Char) :=
  match s with
  | [] => none
  | c :: t =>
    if c = '\x7b' then
      if pfxB productsLit (t.dropWhile isReWs) then
        let u1 := (t.dropWhile isReWs).drop 10
        match u1.dropWhile isReWs with
        | [] => none
        | c3 :: u2 =>
          if c3 = ':' then
            match u2.dropWhile isReWs with
            | [] => none
            | c4 :: u3 =>
              if c4 = '[' then
                match revClose '\x7d' ']' u3.reverse with
                | some m =>
                  some ('\x7b' :: t.takeWhile isReWs ++ productsLit ++
                    u1.takeWhile isReWs ++ ':' :: u2.takeWhile isReWs ++
                    '[' :: u3.take m)
                | none => none
              else none
          else none
      else none
    else none

/-- The model of `re.search` for the first-pass pattern: the text before the
match, the match, and the text after it. -/
def search1 : List Char → Option (List Char × List Char × List Char)
  | [] => none
  | c :: t =>
    match alt1Match (c :: t) with
    | some m => some ([], m, (c :: t).drop m.length)
    | none =>
      match alt2Match (c :: t) with
      | some m => some ([], m, (c :: t).drop m.length)
      | none =>
        match search1 t with
        | some (b, m, a) => some (c :: b, m, a)
        | none => none

/-! The fallback pattern of `display_results` (line 370 of the source):
`(\[[\s\S]*\]|\x7b[\s\S]*\x7d)`, used through `re.findall`.  At a position a
`[` matches up to the last later `]` (greedy), a `\x7b` up to the last later
`\x7d`; `findall` collects non-overlapping matches left to right. -/
/-- Split a list at the last occurrence of `ch`: `l = a ++ ch :: b`. -/
def cutAtLast (ch : Char) : List Char → Option (List Char × List Char)
  | [] => none
  | c :: t =>
    match cutAtLast ch t with
    | some (a, b) => some (c :: a, b)
    | none => if c = ch then some ([], t) else none

/-- Fuel-indexed worker for `findall2`: each step consumes at least one
character, so fuel equal to the input length never runs out. -/
def findall2Go : Nat → List Char → List (List Char)
  | 0, _ => []
  | _, [] => []
  | f + 1, c :: t =>
    if c = '[' then
      match cutAtLast ']' t with
      | some (a, b) => ('[' :: a ++ [']']) :: findall2Go f b
      | none => findall2Go f t
    else if c = '\x7b' then
      match cutAtLast '\x7d' t with
      | some (a, b) => ('\x7b' :: a ++ ['\x7d']) :: findall2Go f b
      | none => findall2Go f t
    else findall2Go f t

/-- The model of `re.findall` for the fallback pattern: the list of matched
substrings, left to right and non-overlapping. -/
def findall2 (s : List Char) : List (List Char) := findall2Go s.length s

/-! Python `str` applied to a decoded JSON value, as interpolated by the
f-strings of the source.  Nested values render in `repr` form with
`\x27`-quoted strings; escaping inside `repr` of exotic strings is not
modelled, and no verified property depends on it. -/
mutual

def pyStr : Json → List Char
  | .null => "None".toList
  | .bool true => "True".toList
  | .bool false => "False".toList
  | .num n => intChars n
  | .str s => s
  | .arr xs => '[' :: pyReprList xs ++ [']']
  | .obj kvs => '\x7b' :: pyReprKVs kvs ++ ['\x7d']

def pyRepr : Json → List Char
  | .null => "None".toList
  | .bool true => "True".toList
  | .bool false => "False".toList
  | .num n => intChars n
  | .str s => '\x27' :: s ++ ['\x27']
  | .arr xs => '[' :: pyReprList xs ++ [']']
  | .obj kvs => '\x7b' :: pyReprKVs kvs ++ ['\x7d']

def pyReprList : List Json → List Char
  | [] => []
  | [x] => pyRepr x
  | x :: y :: t => pyRepr x ++ ',' :: ' ' :: pyReprList (y :: t)

def pyReprKVs : List (List Char × Json) → List Char
  | [] => []
  | [(k, v)] => '\x27' :: k ++ '\x27' :: ':' :: ' ' :: pyRepr v
  | (k, v) :: m :: t =>
    ('\x27' :: k ++ '\x27' :: ':' :: ' ' :: pyRepr v) ++ ',' :: ' ' :: pyReprKVs (m :: t)

end

/-- Python truthiness of a decoded JSON value. -/
def pyTruthy : Json → Bool
  | .null => false
  | .bool b => b
  | .num n => n != 0
  | .str s => !s.isEmpty
  | .arr xs => !xs.isEmpty
  | .obj kvs => !kvs.isEmpty

/-! The JSON-recovery cascade of `display_results` (source lines 255-409). -/
/-- Step one and two of the cascade (source lines 258-269): search for the
first-pass pattern; if it matched, `json.loads` the match, and on failure
`json.loads` the entire content; if it did not match, `json.loads` the
entire content.  `none` is the `json.JSONDecodeError` outcome. -/
def extractData (content : List Char) : Option Json :=
  match search1 content with
  | some (_, m, _) =>
    match loads m with
    | some v => some v
    | none => loads content
  | none => loads content

/-- The `products` unwrapping (source lines 272-275): a dict with a
`products` key yields the value at that key, anything else passes through. -/
def unwrapped (v : Json) : Json :=
  match v with
  | .obj kvs =>
    match jLookup kvs "products".toList with
    | some p => p
    | none => v
  | _ => v

/-- Outcome of the main extraction path: a product list, the shape-error
branch (source lines 277-280, carrying the parsed value), or
`json.JSONDecodeError`. -/
inductive MainRes where
  | ok (ps : List Json)
  | shape (v : Json)
  | decodeFail

def mainExtract (content : List Char) : MainRes :=
  match extractData content with
  | none => .decodeFail
  | some v =>
    match unwrapped v with
    | .arr ps => .ok ps
    | _ => .shape v

/-- The break condition of the fallback loop (source lines 382-389): the
parsed value is a list, or a dict with a `products` key. -/
def isListOrProducts (v : Json) : Bool :=
  match v with
  | .arr _ => true
  | .obj kvs => (jLookup kvs "products".toList).isSome
  | _ => false

/-- The fallback loop over the `re.findall` matches (source lines 376-391):
parse each in turn, stopping at the first that is a list or a
`products`-keyed dict. -/
def fallbackScan : List (List Char) → Option Json
  | [] => none
  | m :: t =>
    match loads m with
    | some v => if isListOrProducts v then some v else fallbackScan t
    | none => fallbackScan t

/-- Overall outcome of the cascade.  `ok` is the list from the main path (displayed
and recorded); `fallbackOk` is a nonempty list recovered by the fallback
path (announced, but neither displayed nor recorded — source line 396 is
`pass`); `malformed` carries the raw text shown when nothing was
recovered (source lines 397-405). -/
inductive ExtractOutcome where
  | ok (ps : List Json)
  | shapeError (v : Json)
  | fallbackOk (ps : List Json)
  | malformed (raw : List Char)

/-- The fallback branch of the cascade (source lines 362-409). -/
def fallbackResult (content : List Char) : ExtractOutcome :=
  match fallbackScan (findall2 content) with
  | some v =>
    let p := match v with
      | .obj kvs =>
        match jLookup kvs "products".toList with
        | some q => q
        | none => v
      | _ => v
    match p with
    | .arr (x :: xs) => .fallbackOk (x :: xs)
    | _ => .malformed content
  | none => .malformed content

/-- The full JSON-recovery cascade of `display_results` applied to the
response content. -/
def extract (content : List Char) : ExtractOutcome :=
  match mainExtract content with
  | .ok ps => .ok ps
  | .shape v => .shapeError v
  | .decodeFail => fallbackResult content

/-! The function `query_perplexity` (source lines 204-238): on HTTP 200 the decoded
response body is returned; otherwise a dict with an `error` key carrying the
status code and the body text. -/
/-- The error message built at source line 238. -/
def api_error_text (status_code : Nat) (text : List Char) : List Char :=
  "API request failed with status code ".toList ++ natChars status_code ++
    ": ".toList ++ text

/-- Result of `query_perplexity` once an HTTP response with the given status
and body has been received (`body_json` is `response.json()`, `body_text`
is `response.text`). -/
def query_perplexity (status_code : Nat) (body_json : Json)
    (body_text : List Char) : Json :=
  if status_code = 200 then body_json
  else .obj [("error".toList, .str (api_error_text status_code body_text))]

/-! The function `display_results` (source lines 242-413) as a state transformer on the
session search history. -/
/-- One completed search, as appended to `st.session_state.search_history`
(source lines 289-295). -/
structure HistoryEntry where
  timestamp : List Char
  tech_spec : List Char
  price_calc_objective : List Char
  results : List Json

/-- What `display_results` ends up showing for the search. -/
inductive DisplayOutcome where
  | apiError (shown : List Char)
  | displayed (ps : List Json)
  | shapeErr (v : Json)
  | fallbackFound (ps : List Json)
  | malformedShown (raw : List Char)
  | processError (r : Json)

/-- The `"error" in response_data` test of source line 243, for the decoded
dict envelope this function receives (a non-dict would already have made
`query_perplexity` raise or the check diverge; the claims only concern dict
envelopes). -/
def errorValue (r : Json) : Option Json :=
  match r with
  | .obj kvs => jLookup kvs "error".toList
  | _ => none

/-- The envelope access `response_data["choices"][0]["message"]["content"]`
of source line 249; `none` is any raised `KeyError`/`IndexError`/`TypeError`,
caught at source line 410. -/
def getContent (r : Json) : Option (List Char) :=
  match r with
  | .obj kvs =>
    match jLookup kvs "choices".toList with
    | some (.arr (c0 :: _)) =>
      match c0 with
      | .obj ckvs =>
        match jLookup ckvs "message".toList with
        | some (.obj mkvs) =>
          match jLookup mkvs "content".toList with
          | some (.str s) => some s
          | _ => none
        | _ => none
      | _ => none
    | _ => none
  | _ => none

/-- The function `display_results` as observed through its display outcome and its effect
on the search history: the history entry is appended exactly when the main
path succeeds (source line 295, before the rendering loop). -/
def display_results (response_data : Json) (tech_spec timestamp
    price_calc_objective : List Char) (history : List HistoryEntry) :
    DisplayOutcome × List HistoryEntry :=
  match errorValue response_data with
  | some e => (.apiError ("Error: ".toList ++ pyStr e), history)
  | none =>
    match getContent response_data with
    | none => (.processError response_data, history)
    | some content =>
      match extract content with
      | .ok ps =>
        (.displayed ps,
          history ++ [⟨timestamp, tech_spec, price_calc_objective, ps⟩])
      | .shapeError v => (.shapeErr v, history)
      | .fallbackOk ps => (.fallbackFound ps, history)
      | .malformed c => (.malformedShown c, history)

/-! The function `generate_prompt` (source lines 136-200), faithful string assembly. -/
/-- The prompt text before the interpolated technical specification
(source lines 138-139). -/
def promptHeader : List Char :=
  "Analyze the Lithuanian market and gather detailed product information according to the following technical specification:\n".toList

/-- The guidelines block after the interpolated specification
(source lines 140-146). -/
def promptGuidelines : List Char :=
  "\n\nFollow these guidelines:\n1. Tik Lietuviški puslapiai\n2. Verify the product is currently available for purchase\n3. Gather accurate pricing in EUR\n4. Evaluate technical specification requirements one by one\n".toList

/-- The fixed JSON-format instruction block up to `product_price`
(source lines 161-178). -/
def promptSchemaHead : List Char :=
  "\n\nResults should be evaluated from all given domains.\nIMPORTANT: Your response MUST be formatted EXACTLY as a valid JSON array of product objects.\nEach product in the array should have the following fields:\n\n[\n  \x7b\n    \"provider\": \"Company selling the product\",\n    \"provider_website\": \"Main website domain (e.g., telia.lt)\",\n    \"provider_url\": \"Full URL to the specific product page\",\n    \"product_name\": \"Complete product name with model\",\n    \"product_properties\": \x7b\n      \"key_spec1\": \"value1\",\n      \"key_spec2\": \"value2\"\n    \x7d,\n    \"product_sku\": \"Any product identifiers (SKU, UPC, model number)\",\n    \"product_price\": 299.99,".toList

/-- The closing block of the prompt (source lines 192-199). -/
def promptTail : List Char :=
  "\n    \"evaluation\": \"Detailed assessment of how the product meets or fails each technical specification\"\n  \x7d\n]\n\nDO NOT include any explanation, preamble, or additional text - ONLY provide the JSON array.\ntry to present at least 5 products\n".toList

/-- The `unit_type = custom_unit if custom_unit else "unit"` defaulting of
source lines 151 and 183: an absent or empty custom unit means `unit`. -/
def unitTypeOf (custom_unit : Option (List Char)) : List Char :=
  match custom_unit with
  | some u => if u.isEmpty then "unit".toList else u
  | none => "unit".toList

/-- The prompt builder (source lines 136-200).  The search domains do not
appear in it: they are passed separately as the domain filter of the request. -/
def generate_prompt (tech_spec price_calc_objective : List Char)
    (custom_unit : Option (List Char)) : List Char :=
  let base := promptHeader ++ tech_spec ++ promptGuidelines
  let withCalc :=
    if price_calc_objective = "none".toList then base
    else if price_calc_objective = "unit".toList then
      base ++ "\n5. Calculate and include price per ".toList ++
        unitTypeOf custom_unit ++ " for each product".toList
    else if price_calc_objective = "kg".toList then
      base ++ "\n5. Calculate and include price per kilogram for each product".toList
    else if price_calc_objective = "liter".toList then
      base ++ "\n5. Calculate and include price per liter for each product".toList
    else if price_calc_objective = "package".toList then
      base ++ "\n5. Calculate and include price per package for each product".toList
    else base
  let withSchema := withCalc ++ promptSchemaHead
  let withField :=
    if price_calc_objective = "none".toList then withSchema
    else if price_calc_objective = "unit".toList then
      withSchema ++ "\n    \"price_per_".toList ++ price_calc_objective ++
        "\": 9.99,\n    \"unit_type\": \"".toList ++ unitTypeOf custom_unit ++
        "\",".toList
    else
      withSchema ++ "\n    \"price_per_".toList ++ price_calc_objective ++
        "\": 9.99,".toList
  withField ++ promptTail

/-! The search-domain configuration (source lines 56-63 and 426-435). -/
/-- The fixed default domain list of source lines 56-63. -/
def default_domains : List (List Char) :=
  ["vaistai.lt".toList, "kainos.lt".toList, "kaina24.lt".toList,
   "gintarine.lt".toList, "eurovaistine.lt".toList, "manovaistine.lt".toList]

/-- The `active_domains` comprehension of source lines 427-428:
`st.session_state.get(f"domain_\x7bdomain\x7d", True)` keeps a domain whose
checkbox key is absent. -/
def active_domains (search_domains : List (List Char))
    (session_get : List Char → Option Bool) : List (List Char) :=
  search_domains.filter (fun d => (session_get ("domain_".toList ++ d)).getD true)

/-- Source lines 430-432: an empty active list warns and falls back to the
default domains.  The Bool records whether the warning was shown. -/
def chosen_domains (search_domains : List (List Char))
    (session_get : List Char → Option Bool) : Bool × List (List Char) :=
  match active_domains search_domains session_get with
  | [] => (true, default_domains)
  | d :: t => (false, d :: t)

/-- Modelled from the spec: the two-phase (OpenAI-variant) orchestrator of
spec section 4.4 is not part of the source under `src/` (only the
single-phase Perplexity app is present there).  Per the spec stage named
Per-URL Extraction: each discovered URL is processed independently, in
discovery order; a parse or transport failure on URL `i` is recorded as one
non-fatal warning and does not abort processing of the later URLs; the
successfully parsed product lists are concatenated in discovery order.
`fetch` gives the per-URL extraction outcome of each URL. -/
def two_phase_aggregate (fetch : Nat → Except (List Char) (List Json)) :
    List Nat → List Json × List (Nat × List Char)
  | [] => ([], [])
  | u :: rest =>
    match fetch u with
    | .ok l =>
      (l ++ (two_phase_aggregate fetch rest).1, (two_phase_aggregate fetch rest).2)
    | .error e =>
      ((two_phase_aggregate fetch rest).1, (u, e) :: (two_phase_aggregate fetch rest).2)

/-! The per-product rendering of `display_results` (source lines 298-356). -/
/-- Python `str.capitalize`. -/
def pyCapitalize : List Char → List Char
  | [] => []
  | c :: t => c.toUpper :: t.map Char.toLower

/-- The `price_per_\x7bprice_calc_objective\x7d` key (source line 303). -/
def pricePerKey (objv : List Char) : List Char := "price_per_".toList ++ objv

/-- Python `product.get(key, default)` on a decoded product dict. -/
def jGet (p : List (List Char × Json)) (k : List Char) (dflt : Json) : Json :=
  (jLookup p k).getD dflt

/-- The `unit_display` suffix (source lines 305-313). -/
def unit_display (objv : List Char) (p : List (List Char × Json)) : List Char :=
  if objv = "unit".toList then
    match jLookup p "unit_type".toList with
    | some u => '/' :: pyStr u
    | none => []
  else if objv = "kg".toList then "/kg".toList
  else if objv = "liter".toList then "/L".toList
  else if objv = "package".toList then "/pkg".toList
  else []

/-- Rendering of the `product_properties` section (source lines 346-352):
an absent or empty dict shows the fixed no-properties text; a present
nonempty dict shows one line per property; a truthy non-dict value would
raise at `.items()` (caught only at the outer boundary). -/
inductive PropsRender where
  | noProps
  | propLines (ls : List (List Char))
  | typeErr (v : Json)

/-- Everything the expander of one product shows, field by field (source lines
298-356).  Conditional lines that the source skips entirely are `Option`s. -/
structure RenderedProduct where
  shownName : List Char
  shownPrice : List Char
  titlePricePer : Option (List Char)
  providerLine : List Char
  websiteLine : List Char
  linkLine : Option (List Char)
  skuLine : List Char
  pricePerLine : Option (List Char)
  propsSection : PropsRender
  shownEvaluation : List Char

def renderProduct (objv : List Char) (p : List (List Char × Json)) :
    RenderedProduct :=
  { shownName := pyStr (jGet p "product_name".toList (.str "Unknown Product".toList))
  , shownPrice := pyStr (jGet p "product_price".toList (.str "N/A".toList))
  , titlePricePer :=
      if objv = "none".toList then none
      else
        match jLookup p (pricePerKey objv) with
        | some v => some (" (€".toList ++ pyStr v ++ unit_display objv p ++ ")".toList)
        | none => none
  , providerLine :=
      "**Provider:** ".toList ++ pyStr (jGet p "provider".toList (.str "N/A".toList))
  , websiteLine :=
      "**Website:** ".toList ++ pyStr (jGet p "provider_website".toList (.str "N/A".toList))
  , linkLine :=
      match jLookup p "provider_url".toList with
      | some u =>
        if pyTruthy u then
          some ("**Product Link:** [View Product](".toList ++ pyStr u ++ ")".toList)
        else none
      | none => none
  , skuLine :=
      "**SKU/ID:** ".toList ++ pyStr (jGet p "product_sku".toList (.str "N/A".toList))
  , pricePerLine :=
      if objv = "none".toList then none
      else
        match jLookup p (pricePerKey objv) with
        | some v =>
          some ("**Price per ".toList ++ pyCapitalize objv ++ ":** €".toList ++
            pyStr v ++ unit_display objv p)
        | none => none
  , propsSection :=
      match jGet p "product_properties".toList (.obj []) with
      | .obj [] => .noProps
      | .obj kvs => .propLines (kvs.map fun kv => "**".toList ++ kv.1 ++ ":** ".toList ++ pyStr kv.2)
      | v => if pyTruthy v then .typeErr v else .noProps
  , shownEvaluation :=
      pyStr (jGet p "evaluation".toList (.str "No evaluation available.".toList)) }

/-- The expander title of source lines 299-315, assembled from the rendered
fields. -/
def productTitle (i : Nat) (objv : List Char) (p : List (List Char × Json)) :
    List Char :=
  natChars (i + 1) ++ ". ".toList ++ (renderProduct objv p).shownName ++
    " - €".toList ++ (renderProduct objv p).shownPrice ++
    ((renderProduct objv p).titlePricePer).getD []

/-- True when the list does not begin with a digit, so that a maximal digit
run ending just before it is indeed maximal. -/
def headNotDigit : List Char → Bool
  | [] => true
  | c :: _ => !isDigitC c

/-! String printing and parsing agree on escape-free strings. -/
/-- Escape-free: no double quote and no backslash, the fragment on which the
serializer needs no escaping and the parser reads characters verbatim. -/
def escFree (s : List Char) : Bool := s.all (fun c => !(c == '"') && !(c == '\\'))

/-! Well-formedness: the fragment of values whose serialization the parser
reads back verbatim (strings and keys free of quotes and backslashes). -/
mutual

def wfJson : Json → Bool
  | .null => true
  | .bool _ => true
  | .num _ => true
  | .str s => escFree s
  | .arr xs => wfList xs
  | .obj kvs => wfKVs kvs

def wfList : List Json → Bool
  | [] => true
  | x :: t => wfJson x && wfList t

def wfKVs : List (List Char × Json) → Bool
  | [] => true
  | (k, v) :: t => escFree k && wfJson v && wfKVs t

end

/-- Guard needed for numerals only: the characters following a serialized
value must not extend its digit run. -/
def numGuard : Json → List Char → Bool
  | .num _, rest => headNotDigit rest
  | _, _ => true

/-- Decidable form of "no contiguous substring of the content parses as
JSON": every drop/take window fails to load. -/
def allSubsFail (content : List Char) : Bool :=
  (List.range (content.length + 1)).all fun i =>
    (List.range (content.length + 1)).all fun j =>
      ((loads ((content.drop i).take j)).isNone)

/-- The needle of the kilogram instruction line (source line 154). -/
def kgInstr : List Char := "Calculate and include price per kilogram".toList

/-- The kilogram schema key needle (source line 189 with objective `kg`). -/
def kgKey : List Char := "price_per_kg".toList

theorem natCharsGo_irrel :
    ∀ m f g, m < f → m < g → natCharsGo f m = natCharsGo g m := by
  intro m
  induction m using Nat.strong_induction_on with
  | _ m ih =>
    intro f g hf hg
    cases f with
    | zero => omega
    | succ f2 =>
      cases g with
      | zero => omega
      | succ g2 =>
        by_cases h : m < 10
        · simp [natCharsGo, h]
        · simp only [natCharsGo, h, if_false]
          rw [ih (m / 10) (Nat.div_lt_self (by omega) (by omega))
            f2 g2 (by omega) (by omega)]

/-- The defining recurrence of `natChars`. -/
theorem natChars_eq (m : Nat) :
    natChars m = if m < 10 then [digitChar m]
      else natChars (m / 10) ++ [digitChar (m % 10)] := by
  unfold natChars
  rw [show natCharsGo (m + 1) m =
    (if m < 10 then [digitChar m]
     else natCharsGo m (m / 10) ++ [digitChar (m % 10)]) from rfl]
  by_cases h : m < 10
  · simp [h]
  · simp only [h, if_false]
    rw [natCharsGo_irrel (m / 10) m (m / 10 + 1)
      (by omega) (by omega)]

example : loads "[\x7b\"a\": 1\x7d]".toList =
    some (.arr [.obj [("a".toList, .num 1)]]) := by rfl

example : loads " \x7b\"x\": [true, null, -12]\x7d ".toList =
    some (.obj [("x".toList, .arr [.bool true, .null, .num (-12)])]) := by rfl

example : loads "hi!".toList = none := by rfl

theorem cutAtLast_eq (ch : Char) :
    ∀ l a b, cutAtLast ch l = some (a, b) → l = a ++ ch :: b := by
  intro l
  induction l with
  | nil => intro a b h; simp [cutAtLast] at h
  | cons c t ih =>
    intro a b h
    simp only [cutAtLast] at h
    cases hc : cutAtLast ch t with
    | some p =>
      rw [hc] at h
      cases h
      simpa using ih p.1 p.2 (by rw [hc])
    | none =>
      rw [hc] at h
      by_cases hce : c = ch
      · simp [hce] at h
        obtain ⟨ha, hb⟩ := h
        simp [← ha, ← hb, hce]
      · simp [hce] at h

theorem cutAtLast_len (ch : Char) (l a b : List Char)
    (h : cutAtLast ch l = some (a, b)) : b.length < l.length := by
  have := cutAtLast_eq ch l a b h
  subst this
  simp
  omega

example : search1 "note [ \x7b\"a\": 1\x7d ] done".toList =
    some ("note ".toList, "[ \x7b\"a\": 1\x7d ]".toList, " done".toList) := by rfl

example : search1 "\x7b\"products\": [\x7b\x7d]\x7d".toList =
    some ([], "\x7b\"products\": [\x7b\x7d]\x7d".toList, []) := by rfl

example : findall2 "x[1, 2]x".toList = ["[1, 2]".toList] := by rfl

example : extract "x[1, 2]x".toList = .fallbackOk [.num 1, .num 2] := by rfl

example : extract "hi!".toList = .malformed "hi!".toList := by rfl

example : extract "pre [\x7b\"a\": 1\x7d] post".toList =
    .ok [.obj [("a".toList, .num 1)]] := by rfl

/-! Substring machinery: a Boolean substring test, its specification, and an
append-decomposition lemma used to reason about occurrences across the
boundaries of concatenated prompt pieces. -/
theorem pfxB_iff (p : List Char) : ∀ l, pfxB p l = true ↔ ∃ t, l = p ++ t := by
  induction p with
  | nil => intro l; simp [pfxB]
  | cons c p ih =>
    intro l
    cases l with
    | nil => simp [pfxB]
    | cons d t =>
      simp only [pfxB, Bool.and_eq_true, beq_iff_eq]
      constructor
      · rintro ⟨rfl, h⟩
        obtain ⟨r, rfl⟩ := (ih t).mp h
        exact ⟨r, rfl⟩
      · rintro ⟨r, hr⟩
        simp only [List.cons_append] at hr
        cases hr
        exact ⟨rfl, (ih _).mpr ⟨r, rfl⟩⟩

theorem subsegB_iff (p : List Char) : ∀ l, subsegB p l = true ↔ subseg p l := by
  intro l
  induction l with
  | nil =>
    simp only [subsegB, pfxB_iff, subseg]
    constructor
    · rintro ⟨t, ht⟩
      exact ⟨[], t, by simpa using ht⟩
    · rintro ⟨s, t, ht⟩
      have hs : s = [] := by
        cases s with
        | nil => rfl
        | cons a b => simp at ht
      subst hs
      exact ⟨t, by simpa using ht⟩
  | cons c t ih =>
    simp only [subsegB, Bool.or_eq_true, pfxB_iff, ih]
    constructor
    · rintro (⟨r, hr⟩ | ⟨s, r, hr⟩)
      · exact ⟨[], r, by simpa using hr⟩
      · exact ⟨c :: s, r, by simp [hr]⟩
    · rintro ⟨s, r, hr⟩
      cases s with
      | nil => exact Or.inl ⟨r, by simpa using hr⟩
      | cons a b =>
        simp only [List.cons_append] at hr
        cases hr
        exact Or.inr ⟨b, r, rfl⟩

theorem subseg_here (p a b : List Char) : subseg p (a ++ p ++ b) := ⟨a, b, rfl⟩

theorem subseg_append_right {p b : List Char} (a : List Char)
    (h : subseg p b) : subseg p (a ++ b) := by
  obtain ⟨s, t, rfl⟩ := h
  exact ⟨a ++ s, t, by simp⟩

theorem subseg_append_left {p a : List Char} (b : List Char)
    (h : subseg p a) : subseg p (a ++ b) := by
  obtain ⟨s, t, rfl⟩ := h
  exact ⟨s, t ++ b, by simp⟩

/-- An occurrence in `a ++ b` lies in `a`, lies in `b`, or straddles the
boundary with a nonempty piece on each side. -/
theorem subseg_append_cases {p a b : List Char} (h : subseg p (a ++ b)) :
    subseg p a ∨ subseg p b ∨
      ∃ p1 p2, p = p1 ++ p2 ∧ p1 ≠ [] ∧ p2 ≠ [] ∧
        (∃ s, a = s ++ p1) ∧ ∃ t, b = p2 ++ t := by
  obtain ⟨s, t, ht⟩ := h
  rw [List.append_assoc] at ht
  rcases List.append_eq_append_iff.mp ht with ⟨k, hk1, hk2⟩ | ⟨k, hk1, hk2⟩
  · right; left
    exact ⟨k, t, by rw [hk2, List.append_assoc]⟩
  · rcases List.append_eq_append_iff.mp hk2 with ⟨m, hm1, hm2⟩ | ⟨m, hm1, hm2⟩
    · left
      exact ⟨s, m, by rw [hk1, hm1, List.append_assoc]⟩
    · cases k with
      | nil =>
        right; left
        refine ⟨[], t, ?_⟩
        simp only [List.nil_append] at hm1
        rw [hm2, ← hm1, List.nil_append]
      | cons kc kt =>
        cases m with
        | nil =>
          left
          refine ⟨s, [], ?_⟩
          simp only [List.append_nil] at hm1 ⊢
          rw [hk1, hm1]
        | cons mc mt =>
          right; right
          exact ⟨kc :: kt, mc :: mt, hm1, by simp, by simp, ⟨s, hk1⟩, ⟨t, hm2⟩⟩

/-! Number printing and parsing agree. -/
theorem digitVal_digitChar {d : Nat} (h : d < 10) : digitVal (digitChar d) = d := by
  interval_cases d <;> rfl

theorem isDigitC_digitChar {d : Nat} (h : d < 10) : isDigitC (digitChar d) = true := by
  interval_cases d <;> rfl

theorem natChars_digits : ∀ m : Nat, ∀ c ∈ natChars m, isDigitC c = true := by
  intro m
  induction m using Nat.strong_induction_on with
  | _ m ih =>
    intro c hc
    rw [natChars_eq] at hc
    by_cases h : m < 10
    · simp [h] at hc
      subst hc
      exact isDigitC_digitChar h
    · simp [h] at hc
      rcases hc with hc | hc
      · exact ih (m / 10) (Nat.div_lt_self (by omega) (by omega)) c hc
      · subst hc
        exact isDigitC_digitChar (Nat.mod_lt _ (by omega))

theorem natChars_ne_nil (m : Nat) : natChars m ≠ [] := by
  rw [natChars_eq]
  by_cases h : m < 10 <;> simp [h]

theorem digitsVal_append (a : List Char) (c : Char) :
    digitsVal (a ++ [c]) = 10 * digitsVal a + digitVal c := by
  simp [digitsVal, List.foldl_append]

theorem digitsVal_natChars : ∀ m : Nat, digitsVal (natChars m) = m := by
  intro m
  induction m using Nat.strong_induction_on with
  | _ m ih =>
    rw [natChars_eq]
    by_cases h : m < 10
    · simp only [h, if_true]
      show 10 * 0 + digitVal (digitChar m) = m
      rw [digitVal_digitChar h]
      omega
    · simp only [h, if_false, digitsVal_append]
      rw [ih (m / 10) (Nat.div_lt_self (by omega) (by omega)),
        digitVal_digitChar (Nat.mod_lt _ (by omega))]
      omega

theorem takeDigits_append {ds : List Char} (r : List Char)
    (hds : ∀ c ∈ ds, isDigitC c = true) (hr : headNotDigit r = true) :
    takeDigits (ds ++ r) = (ds, r) := by
  induction ds with
  | nil =>
    cases r with
    | nil => rfl
    | cons c t =>
      simp only [headNotDigit, Bool.not_eq_true'] at hr
      simp [takeDigits, hr]
  | cons c t ih =>
    have hc := hds c (by simp)
    have ht := ih (fun x hx => hds x (by simp [hx]))
    simp [takeDigits, hc, ht]

theorem digit_not_special {c : Char} (hc : isDigitC c = true) :
    isJWs c = false ∧ c ≠ ']' ∧ c ≠ '\x7d' ∧ c ≠ ',' ∧ c ≠ ':' ∧ c ≠ '-' ∧
      c ≠ '"' ∧ c ≠ '[' ∧ c ≠ '\x7b' ∧ c ≠ 't' ∧ c ≠ 'f' ∧ c ≠ 'n' := by
  simp only [isDigitC, Bool.or_eq_true, decide_eq_true_eq] at hc
  rcases hc with
    ((((((((rfl | rfl) | rfl) | rfl) | rfl) | rfl) | rfl) | rfl) | rfl) | rfl <;>
    decide

theorem parseNum_not_dash {d : Char} (hd : d ≠ '-') (u : List Char) :
    parseNum (d :: u) =
      (match takeDigits (d :: u) with
       | ([], _) => none
       | (ds, r) => some (.num (digitsVal ds), r)) := by
  rw [parseNum.eq_def]
  split
  · rename_i heq
    cases heq
    exact absurd rfl hd
  · rfl

theorem parseNum_natChars (m : Nat) (rest : List Char)
    (hrest : headNotDigit rest = true) :
    parseNum (natChars m ++ rest) = some (.num (m : Int), rest) := by
  obtain ⟨d, u, hdu⟩ : ∃ d u, natChars m = d :: u := by
    cases h : natChars m with
    | nil => exact absurd h (natChars_ne_nil m)
    | cons d u => exact ⟨d, u, rfl⟩
  have hdd : isDigitC d = true := natChars_digits m d (by rw [hdu]; simp)
  have htd := takeDigits_append rest (natChars_digits m) hrest
  rw [hdu, List.cons_append] at htd
  have hv : digitsVal (d :: u) = m := by rw [← hdu]; exact digitsVal_natChars m
  rw [hdu, List.cons_append,
    parseNum_not_dash (digit_not_special hdd).2.2.2.2.2.1 _, htd]
  show some (Json.num ((digitsVal (d :: u) : Nat) : Int), rest) =
    some (Json.num ((m : Nat) : Int), rest)
  rw [hv]

theorem parseNum_intChars (n : Int) (rest : List Char)
    (hrest : headNotDigit rest = true) :
    parseNum (intChars n ++ rest) = some (.num n, rest) := by
  cases n with
  | ofNat m => exact parseNum_natChars m rest hrest
  | negSucc k =>
    have htd := takeDigits_append rest (natChars_digits (k + 1)) hrest
    obtain ⟨d, u, hdu⟩ : ∃ d u, natChars (k + 1) = d :: u := by
      cases h : natChars (k + 1) with
      | nil => exact absurd h (natChars_ne_nil (k + 1))
      | cons d u => exact ⟨d, u, rfl⟩
    rw [hdu, List.cons_append] at htd
    have hv : digitsVal (d :: u) = k + 1 := by
      rw [← hdu]; exact digitsVal_natChars (k + 1)
    show (match takeDigits (natChars (k + 1) ++ rest) with
          | ([], _) => none
          | (ds, r) => some (Json.num (-(digitsVal ds : Int)), r)) =
        some (Json.num (Int.negSucc k), rest)
    rw [hdu, List.cons_append, htd]
    show some (Json.num (-(digitsVal (d :: u) : Int)), rest) =
      some (Json.num (Int.negSucc k), rest)
    rw [hv, Int.negSucc_eq]
    norm_cast

theorem parseStrChars_cons_other {c : Char} (hq : c ≠ '"') (hb : c ≠ '\\')
    (u : List Char) :
    parseStrChars (c :: u) = (parseStrChars u).map (fun p => (c :: p.1, p.2)) := by
  rw [parseStrChars.eq_def]
  simp [hq, hb]

theorem parseStrChars_clean (s : List Char) (rest : List Char)
    (h : escFree s = true) :
    parseStrChars (s ++ '"' :: rest) = some (s, rest) := by
  induction s with
  | nil =>
    rw [List.nil_append, parseStrChars.eq_def]
    simp
  | cons c t ih =>
    simp only [escFree, List.all_cons, Bool.and_eq_true, Bool.not_eq_true',
      beq_eq_false_iff_ne, ne_eq] at h
    obtain ⟨⟨h1, h2⟩, h3⟩ := h
    rw [List.cons_append, parseStrChars_cons_other h1 h2,
      ih (by simpa [escFree] using h3)]
    rfl

theorem numGuard_of_headNotDigit {r : List Char} (h : headNotDigit r = true)
    (v : Json) : numGuard v r = true := by
  cases v <;> simp [numGuard, h]

theorem jsize_pos (v : Json) : 1 ≤ jsize v := by
  cases v <;> simp [jsize]

theorem skipJWs_cons {c : Char} (h : isJWs c = false) (t : List Char) :
    skipJWs (c :: t) = c :: t := by
  simp [skipJWs, List.dropWhile_cons, h]

/-- Heads of serialized values are never whitespace nor closing/separator
punctuation. -/
theorem stringify_head_props (v : Json) :
    ∃ c u, stringify v = c :: u ∧ isJWs c = false ∧ c ≠ ']' ∧ c ≠ '\x7d' ∧
      c ≠ ',' ∧ c ≠ ':' := by
  cases v with
  | null => exact ⟨'n', _, rfl, by decide, by decide, by decide, by decide, by decide⟩
  | bool b =>
    cases b with
    | true => exact ⟨'t', _, rfl, by decide, by decide, by decide, by decide, by decide⟩
    | false => exact ⟨'f', _, rfl, by decide, by decide, by decide, by decide, by decide⟩
  | num n =>
    cases n with
    | ofNat m =>
      obtain ⟨d, u, hdu⟩ : ∃ d u, natChars m = d :: u := by
        cases h : natChars m with
        | nil => exact absurd h (natChars_ne_nil m)
        | cons d u => exact ⟨d, u, rfl⟩
      have hdd : isDigitC d = true := natChars_digits m d (by rw [hdu]; simp)
      obtain ⟨h1, h2, h3, h4, h5, _⟩ := digit_not_special hdd
      exact ⟨d, u, hdu, h1, h2, h3, h4, h5⟩
    | negSucc k =>
      exact ⟨'-', _, rfl, by decide, by decide, by decide, by decide, by decide⟩
  | str s => exact ⟨'"', _, rfl, by decide, by decide, by decide, by decide, by decide⟩
  | arr xs => exact ⟨'[', _, rfl, by decide, by decide, by decide, by decide, by decide⟩
  | obj kvs => exact ⟨'\x7b', _, rfl, by decide, by decide, by decide, by decide, by decide⟩

theorem strList_head_props (x : Json) (t : List Json) :
    ∃ c u, strList (x :: t) = c :: u ∧ isJWs c = false ∧ c ≠ ']' ∧ c ≠ '\x7d' ∧
      c ≠ ',' ∧ c ≠ ':' := by
  obtain ⟨c, u, hx, h1, h2, h3, h4, h5⟩ := stringify_head_props x
  cases t with
  | nil => exact ⟨c, u, by simp [strList, hx], h1, h2, h3, h4, h5⟩
  | cons y t2 =>
    exact ⟨c, u ++ ',' :: strList (y :: t2), by simp [strList, hx], h1, h2, h3, h4, h5⟩

theorem strMembers_cons (kv : List Char × Json) (t : List (List Char × Json)) :
    ∃ y, strMembers (kv :: t) = '"' :: y := by
  obtain ⟨k, v⟩ := kv
  cases t with
  | nil => exact ⟨_, rfl⟩
  | cons m t2 => exact ⟨_, rfl⟩

/-! Reduction helpers for the fuel-indexed parser: each is definitional. -/
theorem parseVal_quote (f : Nat) (x : List Char) :
    parseVal (f + 1) ('"' :: x) =
      (parseStrChars x).map (fun p => (Json.str p.1, p.2)) := rfl

theorem parseVal_lbrack (f : Nat) (x : List Char) :
    parseVal (f + 1) ('[' :: x) =
      if (skipJWs x).head? = some ']' then some (.arr [], (skipJWs x).tail)
      else (parseElems f (skipJWs x)).map (fun p => (.arr p.1, p.2)) := rfl

theorem parseVal_lbrace (f : Nat) (x : List Char) :
    parseVal (f + 1) ('\x7b' :: x) =
      if (skipJWs x).head? = some '\x7d' then some (.obj [], (skipJWs x).tail)
      else (parseMembers f (skipJWs x)).map (fun p => (.obj p.1, p.2)) := rfl

theorem parseVal_dash (f : Nat) (x : List Char) :
    parseVal (f + 1) ('-' :: x) = parseNum ('-' :: x) := rfl

theorem parseVal_digit {d : Char} (hd : isDigitC d = true) (f : Nat)
    (x : List Char) : parseVal (f + 1) (d :: x) = parseNum (d :: x) := by
  simp only [isDigitC, Bool.or_eq_true, decide_eq_true_eq] at hd
  rcases hd with
    ((((((((rfl | rfl) | rfl) | rfl) | rfl) | rfl) | rfl) | rfl) | rfl) | rfl <;>
    rfl

theorem parseElems_succ (f : Nat) (s : List Char) :
    parseElems (f + 1) s =
      match parseVal f s with
      | none => none
      | some (v, r) =>
        match skipJWs r with
        | ',' :: r2 =>
          match parseElems f r2 with
          | some (vs, rr) => some (v :: vs, rr)
          | none => none
        | ']' :: r2 => some ([v], r2)
        | _ => none := rfl

theorem parseMembers_succ (f : Nat) (s : List Char) :
    parseMembers (f + 1) s =
      match skipJWs s with
      | '"' :: r =>
        match parseStrChars r with
        | none => none
        | some (k, r1) =>
          match skipJWs r1 with
          | ':' :: r2 =>
            match parseVal f r2 with
            | none => none
            | some (v, r3) =>
              match skipJWs r3 with
              | ',' :: r4 =>
                match parseMembers f r4 with
                | some (kvs, rr) => some ((k, v) :: kvs, rr)
                | none => none
              | '\x7d' :: r4 => some ([(k, v)], r4)
              | _ => none
          | _ => none
      | _ => none := rfl

/-- The parser reads back what the serializer wrote, leaving the trailing
text untouched: the conjunction of the value, element-list and member-list
forms, by induction on fuel. -/
theorem parse_round (f : Nat) :
    (∀ v rest, wfJson v = true → numGuard v rest = true → jsize v ≤ f →
      parseVal f (stringify v ++ rest) = some (v, rest)) ∧
    (∀ xs rest, wfList xs = true → xs ≠ [] → jsizeL xs ≤ f →
      parseElems f (strList xs ++ ']' :: rest) = some (xs, rest)) ∧
    (∀ kvs rest, wfKVs kvs = true → kvs ≠ [] → jsizeKV kvs ≤ f →
      parseMembers f (strMembers kvs ++ '\x7d' :: rest) = some (kvs, rest)) := by
  induction f with
  | zero =>
    refine ⟨?_, ?_, ?_⟩
    · intro v _ _ _ hsz
      exact absurd (Nat.le_trans (jsize_pos v) hsz) (by omega)
    · intro xs _ _ hne hsz
      cases xs with
      | nil => exact absurd rfl hne
      | cons x t => simp [jsizeL] at hsz
    · intro kvs _ _ hne hsz
      cases kvs with
      | nil => exact absurd rfl hne
      | cons kv t =>
        obtain ⟨k, v⟩ := kv
        simp [jsizeKV] at hsz
  | succ f ih =>
    obtain ⟨ih1, ih2, ih3⟩ := ih
    refine ⟨?_, ?_, ?_⟩
    · -- values
      intro v rest hwf hng hsz
      cases v with
      | null => rfl
      | bool b => cases b <;> rfl
      | num n =>
        have hrest : headNotDigit rest = true := by simpa [numGuard] using hng
        cases n with
        | ofNat m =>
          obtain ⟨d, u, hdu⟩ : ∃ d u, natChars m = d :: u := by
            cases h : natChars m with
            | nil => exact absurd h (natChars_ne_nil m)
            | cons d u => exact ⟨d, u, rfl⟩
          have hdd : isDigitC d = true := natChars_digits m d (by rw [hdu]; simp)
          show parseVal (f + 1) (natChars m ++ rest) = some (.num (m : Int), rest)
          rw [hdu, List.cons_append, parseVal_digit hdd, ← List.cons_append, ← hdu]
          exact parseNum_natChars m rest hrest
        | negSucc k =>
          show parseVal (f + 1) ('-' :: (natChars (k + 1) ++ rest)) =
            some (.num (Int.negSucc k), rest)
          rw [parseVal_dash]
          exact parseNum_intChars (Int.negSucc k) rest hrest
      | str s =>
        have hs : stringify (.str s) ++ rest = '"' :: (s ++ '"' :: rest) := by
          simp [stringify]
        rw [hs, parseVal_quote,
          parseStrChars_clean s rest (by simpa [wfJson] using hwf)]
        rfl
      | arr xs =>
        cases xs with
        | nil => rfl
        | cons x t =>
          have hs : stringify (.arr (x :: t)) ++ rest =
              '[' :: (strList (x :: t) ++ ']' :: rest) := by
            simp [stringify]
          obtain ⟨c, u, hcu, hws, hrb, _, _, _⟩ := strList_head_props x t
          rw [hs, parseVal_lbrack, hcu, List.cons_append, skipJWs_cons hws]
          rw [if_neg (by simp [hrb])]
          rw [← List.cons_append, ← hcu,
            ih2 (x :: t) rest (by simpa [wfJson] using hwf) (by simp)
              (by simp [jsize] at hsz; omega)]
          rfl
      | obj kvs =>
        cases kvs with
        | nil => rfl
        | cons kv t =>
          have hs : stringify (.obj (kv :: t)) ++ rest =
              '\x7b' :: (strMembers (kv :: t) ++ '\x7d' :: rest) := by
            simp [stringify]
          obtain ⟨y, hy⟩ := strMembers_cons kv t
          rw [hs, parseVal_lbrace, hy, List.cons_append,
            skipJWs_cons (by decide)]
          simp only [List.head?_cons]
          rw [if_neg (fun hcon => absurd (Option.some.inj hcon) (by decide))]
          rw [← List.cons_append, ← hy,
            ih3 (kv :: t) rest (by simpa [wfJson] using hwf) (by simp)
              (by simp [jsize] at hsz; omega)]
          rfl
    · -- element lists
      intro xs rest hwf hne hsz
      cases xs with
      | nil => exact absurd rfl hne
      | cons x t =>
        simp only [wfList, Bool.and_eq_true] at hwf
        simp only [jsizeL] at hsz
        cases t with
        | nil =>
          have h1 := ih1 x (']' :: rest) hwf.1
            (@numGuard_of_headNotDigit (']' :: rest) rfl x) (by omega)
          show parseElems (f + 1) (strList [x] ++ ']' :: rest) = some ([x], rest)
          rw [parseElems_succ]
          have hsx : strList [x] ++ ']' :: rest = stringify x ++ ']' :: rest := by
            simp [strList]
          rw [hsx, h1]
          rfl
        | cons y t2 =>
          have hs : strList (x :: y :: t2) ++ ']' :: rest =
              stringify x ++ (',' :: (strList (y :: t2) ++ ']' :: rest)) := by
            simp [strList, List.append_assoc]
          have h1 := ih1 x (',' :: (strList (y :: t2) ++ ']' :: rest)) hwf.1
            (@numGuard_of_headNotDigit (',' :: (strList (y :: t2) ++ ']' :: rest)) rfl x)
            (by omega)
          have h2 := ih2 (y :: t2) rest hwf.2 (by simp) (by simp [jsizeL] at hsz ⊢; omega)
          rw [hs, parseElems_succ, h1]
          show (match parseElems f (strList (y :: t2) ++ ']' :: rest) with
                | some (vs, rr) => some (x :: vs, rr)
                | none => none) = some (x :: y :: t2, rest)
          rw [h2]
    · -- member lists
      intro kvs rest hwf hne hsz
      cases kvs with
      | nil => exact absurd rfl hne
      | cons kv t =>
        obtain ⟨k, v⟩ := kv
        simp only [wfKVs, Bool.and_eq_true] at hwf
        obtain ⟨⟨hk, hv⟩, ht⟩ := hwf
        simp only [jsizeKV] at hsz
        cases t with
        | nil =>
          have hs : strMembers [(k, v)] ++ '\x7d' :: rest =
              '"' :: (k ++ '"' :: (':' :: (stringify v ++ '\x7d' :: rest))) := by
            simp [strMembers]
          rw [hs, parseMembers_succ]
          show (match parseStrChars (k ++ '"' :: (':' :: (stringify v ++ '\x7d' :: rest))) with
                | none => none
                | some (k2, r1) =>
                  match skipJWs r1 with
                  | ':' :: r2 =>
                    match parseVal f r2 with
                    | none => none
                    | some (v2, r3) =>
                      match skipJWs r3 with
                      | ',' :: r4 =>
                        match parseMembers f r4 with
                        | some (kvs2, rr) => some ((k2, v2) :: kvs2, rr)
                        | none => none
                      | '\x7d' :: r4 => some ([(k2, v2)], r4)
                      | _ => none
                  | _ => none) = some ([(k, v)], rest)
          rw [parseStrChars_clean k _ hk]
          show (match parseVal f (stringify v ++ '\x7d' :: rest) with
                | none => none
                | some (v2, r3) =>
                  match skipJWs r3 with
                  | ',' :: r4 =>
                    match parseMembers f r4 with
                    | some (kvs2, rr) => some (((k, v2)) :: kvs2, rr)
                    | none => none
                  | '\x7d' :: r4 => some ([(k, v2)], r4)
                  | _ => none) = some ([(k, v)], rest)
          rw [ih1 v ('\x7d' :: rest) hv
            (@numGuard_of_headNotDigit ('\x7d' :: rest) rfl v) (by omega)]
          rfl
        | cons m t2 =>
          have hs : strMembers ((k, v) :: m :: t2) ++ '\x7d' :: rest =
              '"' :: (k ++ '"' :: (':' :: (stringify v ++
                ',' :: (strMembers (m :: t2) ++ '\x7d' :: rest)))) := by
            simp [strMembers, List.append_assoc]
          rw [hs, parseMembers_succ]
          show (match parseStrChars (k ++ '"' :: (':' :: (stringify v ++
                  ',' :: (strMembers (m :: t2) ++ '\x7d' :: rest)))) with
                | none => none
                | some (k2, r1) =>
                  match skipJWs r1 with
                  | ':' :: r2 =>
                    match parseVal f r2 with
                    | none => none
                    | some (v2, r3) =>
                      match skipJWs r3 with
                      | ',' :: r4 =>
                        match parseMembers f r4 with
                        | some (kvs2, rr) => some ((k2, v2) :: kvs2, rr)
                        | none => none
                      | '\x7d' :: r4 => some ([(k2, v2)], r4)
                      | _ => none
                  | _ => none) = some ((k, v) :: m :: t2, rest)
          rw [parseStrChars_clean k _ hk]
          show (match parseVal f (stringify v ++
                  ',' :: (strMembers (m :: t2) ++ '\x7d' :: rest)) with
                | none => none
                | some (v2, r3) =>
                  match skipJWs r3 with
                  | ',' :: r4 =>
                    match parseMembers f r4 with
                    | some (kvs2, rr) => some (((k, v2)) :: kvs2, rr)
                    | none => none
                  | '\x7d' :: r4 => some ([(k, v2)], r4)
                  | _ => none) = some ((k, v) :: m :: t2, rest)
          rw [ih1 v (',' :: (strMembers (m :: t2) ++ '\x7d' :: rest)) hv
            (@numGuard_of_headNotDigit (',' :: (strMembers (m :: t2) ++ '\x7d' :: rest)) rfl v)
            (by omega)]
          show (match parseMembers f (strMembers (m :: t2) ++ '\x7d' :: rest) with
                | some (kvs2, rr) => some (((k, v)) :: kvs2, rr)
                | none => none) = some ((k, v) :: m :: t2, rest)
          rw [ih3 (m :: t2) rest ht (by simp) (by simp [jsizeKV] at hsz ⊢; omega)]

theorem intChars_ne_nil (n : Int) : intChars n ≠ [] := by
  cases n with
  | ofNat m => exact natChars_ne_nil m
  | negSucc k => simp [intChars]

mutual

theorem jsize_le_len : (v : Json) → jsize v ≤ (stringify v).length
  | .null => by simp [jsize, stringify]
  | .bool b => by cases b <;> simp [jsize, stringify]
  | .num n => by
    have h := List.length_pos.mpr (intChars_ne_nil n)
    simp only [jsize, stringify]
    omega
  | .str s => by simp [jsize, stringify]
  | .arr xs => by
    have h := jsizeL_le_len xs
    simp only [jsize, stringify, List.length_cons, List.length_append,
      List.length_singleton]
    omega
  | .obj kvs => by
    have h := jsizeKV_le_len kvs
    simp only [jsize, stringify, List.length_cons, List.length_append,
      List.length_singleton]
    omega

theorem jsizeL_le_len : (xs : List Json) → jsizeL xs ≤ (strList xs).length + 1
  | [] => by simp [jsizeL, strList]
  | [x] => by
    have h := jsize_le_len x
    simp only [jsizeL, strList]
    omega
  | x :: y :: t => by
    have h1 := jsize_le_len x
    have h2 := jsizeL_le_len (y :: t)
    rw [show jsizeL (x :: y :: t) = 1 + jsize x + jsizeL (y :: t) from rfl,
      show strList (x :: y :: t) = stringify x ++ ',' :: strList (y :: t) from rfl]
    simp only [List.length_append, List.length_cons]
    omega

theorem jsizeKV_le_len : (kvs : List (List Char × Json)) →
    jsizeKV kvs ≤ (strMembers kvs).length + 1
  | [] => by simp [jsizeKV, strMembers]
  | [(k, v)] => by
    have h := jsize_le_len v
    simp only [jsizeKV, strMembers, List.length_cons, List.length_append]
    omega
  | (k, v) :: m :: t => by
    have h1 := jsize_le_len v
    have h2 := jsizeKV_le_len (m :: t)
    rw [show jsizeKV ((k, v) :: m :: t) = 1 + jsize v + jsizeKV (m :: t) from rfl,
      show strMembers ((k, v) :: m :: t) =
        ('"' :: k ++ '"' :: ':' :: stringify v) ++ ',' :: strMembers (m :: t) from rfl]
    simp only [List.length_append, List.length_cons]
    omega

end

/-- Serialize-then-parse is the identity on well-formed values. -/
theorem loads_stringify (v : Json) (h : wfJson v = true) :
    loads (stringify v) = some v := by
  have hsz : jsize v ≤ (stringify v).length + 1 :=
    Nat.le_trans (jsize_le_len v) (by omega)
  have h1 := (parse_round ((stringify v).length + 1)).1 v [] h
    (@numGuard_of_headNotDigit [] rfl v) hsz
  rw [List.append_nil] at h1
  unfold loads
  rw [h1]
  rfl

/-! Behaviour of the first-pass search on text around an embedded match. -/
theorem alt1Match_not_lbrack {c : Char} (hc : c ≠ '[') (t : List Char) :
    alt1Match (c :: t) = none := by
  simp only [alt1Match]
  rw [if_neg hc]

theorem alt2Match_not_lbrace {c : Char} (hc : c ≠ '\x7b') (t : List Char) :
    alt2Match (c :: t) = none := by
  simp only [alt2Match]
  rw [if_neg hc]

theorem search1_cons_skip {c : Char} (hc1 : c ≠ '[') (hc2 : c ≠ '\x7b')
    (r : List Char) :
    search1 (c :: r) =
      match search1 r with
      | some (b, m, a) => some (c :: b, m, a)
      | none => none := by
  show (match alt1Match (c :: r) with
        | some m => some (([] : List Char), m, (c :: r).drop m.length)
        | none =>
          match alt2Match (c :: r) with
          | some m => some (([] : List Char), m, (c :: r).drop m.length)
          | none =>
            match search1 r with
            | some (b, m, a) => some (c :: b, m, a)
            | none => none) =
      match search1 r with
      | some (b, m, a) => some (c :: b, m, a)
      | none => none
  rw [alt1Match_not_lbrack hc1, alt2Match_not_lbrace hc2]

theorem search1_append_skip (p1 : List Char)
    (hp : ∀ c ∈ p1, c ≠ '[' ∧ c ≠ '\x7b') (r : List Char) :
    search1 (p1 ++ r) =
      match search1 r with
      | some (b, m, a) => some (p1 ++ b, m, a)
      | none => none := by
  induction p1 with
  | nil =>
    cases hs : search1 r with
    | none => simpa using hs
    | some p =>
      obtain ⟨b, m, a⟩ := p
      simpa using hs
  | cons c t ih =>
    have hc := hp c (by simp)
    rw [List.cons_append, search1_cons_skip hc.1 hc.2,
      ih (fun x hx => hp x (by simp [hx]))]
    cases hs : search1 r with
    | none => rfl
    | some p =>
      obtain ⟨b, m, a⟩ := p
      simp

theorem revClose_skip {lastC preC : Char} {cs : List Char}
    (hcs : ∀ c ∈ cs, c ≠ lastC) (rs : List Char) :
    revClose lastC preC (cs ++ rs) = revClose lastC preC rs := by
  induction cs with
  | nil => rfl
  | cons c t ih =>
    have hc : (c == lastC) = false := by
      simp [hcs c (by simp)]
    rw [List.cons_append, revClose, hc]
    simp only [Bool.false_and, if_false]
    exact ih (fun x hx => hcs x (by simp [hx]))

theorem revClose_hit {rs : List Char} {preC : Char} (lastC : Char)
    (h : ∃ w, rs.dropWhile isReWs = preC :: w) :
    revClose lastC preC (lastC :: rs) = some (rs.length + 1) := by
  obtain ⟨w, hw⟩ := h
  rw [revClose, hw]
  simp

/-! The greedy first alternative matches exactly the serialized array when
the trailing prose is free of closing brackets. -/
theorem strList_obj_head {kvs : List (List Char × Json)} (t : List Json) :
    ∃ rb, strList (Json.obj kvs :: t) = '\x7b' :: rb ∧
      stringify (Json.obj kvs) = '\x7b' :: strMembers kvs ++ ['\x7d'] := by
  cases t with
  | nil => exact ⟨_, rfl, rfl⟩
  | cons y t2 => exact ⟨_, rfl, rfl⟩

theorem strList_ends_brace :
    ∀ xs : List Json, (∀ v ∈ xs, ∃ kvs, v = Json.obj kvs) → xs ≠ [] →
      ∃ pre, strList xs = pre ++ ['\x7d'] := by
  intro xs
  induction xs with
  | nil => intro _ h; exact absurd rfl h
  | cons x t ih =>
    intro hobj _
    obtain ⟨kvs, rfl⟩ := hobj x (by simp)
    cases t with
    | nil =>
      refine ⟨'\x7b' :: strMembers kvs, ?_⟩
      simp [strList, stringify]
    | cons y t2 =>
      obtain ⟨pre, hpre⟩ := ih (fun v hv => hobj v (by simp [hv])) (by simp)
      refine ⟨stringify (Json.obj kvs) ++ ',' :: pre, ?_⟩
      rw [show strList (Json.obj kvs :: y :: t2) =
        stringify (Json.obj kvs) ++ ',' :: strList (y :: t2) from rfl, hpre]
      simp

theorem alt1Match_of_array (p2 : List Char) (hp2 : ∀ c ∈ p2, c ≠ ']')
    (xs : List Json) (hobj : ∀ v ∈ xs, ∃ kvs, v = Json.obj kvs)
    (hne : xs ≠ []) :
    alt1Match (stringify (.arr xs) ++ p2) = some (stringify (.arr xs)) := by
  obtain ⟨x, t, rfl⟩ : ∃ x t, xs = x :: t := by
    cases xs with
    | nil => exact absurd rfl hne
    | cons x t => exact ⟨x, t, rfl⟩
  obtain ⟨kvs, rfl⟩ := hobj x (by simp)
  obtain ⟨rb, hrb, _⟩ := @strList_obj_head kvs t
  obtain ⟨pre, hpre⟩ := strList_ends_brace _ hobj (by simp)
  -- the body after the opening brace ends with the closing brace
  obtain ⟨pre2, hpre2⟩ : ∃ pre2, rb = pre2 ++ ['\x7d'] := by
    rw [hrb] at hpre
    cases pre with
    | nil => simp at hpre
    | cons q qre =>
      rw [List.cons_append, List.cons_eq_cons] at hpre
      exact ⟨qre, hpre.2⟩
  have hs : stringify (.arr (Json.obj kvs :: t)) ++ p2 =
      '[' :: '\x7b' :: (rb ++ ']' :: p2) := by
    rw [show stringify (.arr (Json.obj kvs :: t)) =
      '[' :: strList (Json.obj kvs :: t) ++ [']'] from rfl, hrb]
    simp
  rw [hs]
  have hred : alt1Match ('[' :: '\x7b' :: (rb ++ ']' :: p2)) =
      match revClose ']' '\x7d' (rb ++ ']' :: p2).reverse with
      | some m => some ('[' :: '\x7b' :: (rb ++ ']' :: p2).take m)
      | none => none := rfl
  rw [hred]
  have hrev : (rb ++ ']' :: p2).reverse = p2.reverse ++ (']' :: rb.reverse) := by
    simp
  have hrv : rb.reverse = '\x7d' :: pre2.reverse := by
    rw [hpre2]; simp
  have hws : isReWs '\x7d' = false := by decide
  have hclose : revClose ']' '\x7d' (rb ++ ']' :: p2).reverse =
      some (rb.length + 1) := by
    rw [hrev, revClose_skip (fun c hc => hp2 c (by simpa using hc)),
      revClose_hit ']' ⟨pre2.reverse, by rw [hrv, List.dropWhile_cons, hws]; simp⟩]
    simp
  rw [hclose]
  have htake : (rb ++ ']' :: p2).take (rb.length + 1) = rb ++ [']'] := by
    rw [List.take_append_eq_append_take]
    simp
  show some ('[' :: '\x7b' :: (rb ++ ']' :: p2).take (rb.length + 1)) =
    some (stringify (.arr (Json.obj kvs :: t)))
  rw [htake, show stringify (.arr (Json.obj kvs :: t)) =
    '[' :: strList (Json.obj kvs :: t) ++ [']'] from rfl, hrb]
  simp

/-! Every candidate the cascade ever parses is a contiguous substring of the
response content. -/
theorem alt1Match_split {s m : List Char} (h : alt1Match s = some m) :
    ∃ r, s = m ++ r := by
  cases s with
  | nil => simp [alt1Match] at h
  | cons c t =>
    simp only [alt1Match] at h
    split at h
    · rename_i hc
      split at h
      · simp at h
      · rename_i c2 u hdw
        split at h
        · rename_i hc2
          split at h
          · rename_i m2 hrc
            rw [Option.some.injEq] at h
            refine ⟨u.drop m2, ?_⟩
            rw [← h, hc]
            have ht : t = t.takeWhile isReWs ++ (c2 :: u) := by
              rw [← hdw, List.takeWhile_append_dropWhile]
            conv_lhs => rw [ht, hc2]
            simp [List.take_append_drop]
          · simp at h
        · simp at h
    · simp at h

theorem alt2Match_split {s m : List Char} (h : alt2Match s = some m) :
    ∃ r, s = m ++ r := by
  cases s with
  | nil => simp [alt2Match] at h
  | cons c t =>
    simp only [alt2Match] at h
    split at h
    · rename_i hc
      split at h
      · rename_i hpb
        obtain ⟨w, hw⟩ := (pfxB_iff productsLit (t.dropWhile isReWs)).mp hpb
        have hwdrop : (t.dropWhile isReWs).drop 10 = w := by
          rw [hw, show (10 : Nat) = productsLit.length from rfl, List.drop_left]
        split at h
        · simp at h
        · rename_i c3 u2 hdw1
          split at h
          · rename_i hc3
            split at h
            · simp at h
            · rename_i c4 u3 hdw2
              split at h
              · rename_i hc4
                split at h
                · rename_i m2 hrc
                  rw [Option.some.injEq] at h
                  refine ⟨u3.drop m2, ?_⟩
                  rw [← h, hc]
                  have ht : t = t.takeWhile isReWs ++
                      (productsLit ++ (t.dropWhile isReWs).drop 10) := by
                    rw [hwdrop]
                    conv_lhs => rw [← List.takeWhile_append_dropWhile isReWs t]
                    rw [hw]
                  have hu1 : (t.dropWhile isReWs).drop 10 =
                      ((t.dropWhile isReWs).drop 10).takeWhile isReWs ++
                        (c3 :: u2) := by
                    rw [← hdw1, List.takeWhile_append_dropWhile]
                  have hu2 : u2 = u2.takeWhile isReWs ++ (c4 :: u3) := by
                    rw [← hdw2, List.takeWhile_append_dropWhile]
                  conv_lhs => rw [ht, hu1, hc3, hu2, hc4]
                  simp [List.take_append_drop]
                · simp at h
              · simp at h
          · simp at h
      · simp at h
    · simp at h

theorem search1_parts :
    ∀ s b m a, search1 s = some (b, m, a) → s = b ++ m ++ a := by
  intro s
  induction s with
  | nil => intro b m a h; simp [search1] at h
  | cons c t ih =>
    intro b m a h
    have hred : search1 (c :: t) =
        match alt1Match (c :: t) with
        | some m2 => some (([] : List Char), m2, (c :: t).drop m2.length)
        | none =>
          match alt2Match (c :: t) with
          | some m2 => some (([] : List Char), m2, (c :: t).drop m2.length)
          | none =>
            match search1 t with
            | some (b2, m2, a2) => some (c :: b2, m2, a2)
            | none => none := rfl
    rw [hred] at h
    cases h1 : alt1Match (c :: t) with
    | some m2 =>
      rw [h1] at h
      rw [Option.some.injEq] at h
      obtain ⟨d, hd⟩ := alt1Match_split h1
      simp only [Prod.mk.injEq] at h
      obtain ⟨rfl, rfl, rfl⟩ := h
      rw [List.nil_append, hd, List.drop_left]
    | none =>
      rw [h1] at h
      cases h2 : alt2Match (c :: t) with
      | some m2 =>
        rw [h2] at h
        rw [Option.some.injEq] at h
        obtain ⟨d, hd⟩ := alt2Match_split h2
        simp only [Prod.mk.injEq] at h
        obtain ⟨rfl, rfl, rfl⟩ := h
        rw [List.nil_append, hd, List.drop_left]
      | none =>
        rw [h2] at h
        cases h3 : search1 t with
        | some p =>
          obtain ⟨b2, m2, a2⟩ := p
          rw [h3] at h
          rw [Option.some.injEq] at h
          simp only [Prod.mk.injEq] at h
          obtain ⟨rfl, rfl, rfl⟩ := h
          rw [List.cons_append, ih b2 m2 a2 h3]
          simp
        | none => rw [h3] at h; simp at h

theorem findall2Go_infix :
    ∀ f s m, m ∈ findall2Go f s → subseg m s := by
  intro f
  induction f with
  | zero => intro s m hm; simp [findall2Go] at hm
  | succ f ih =>
    intro s m hm
    cases s with
    | nil => simp [findall2Go] at hm
    | cons c t =>
      rw [findall2Go] at hm
      by_cases hc : c = '['
      · rw [if_pos hc] at hm
        cases hcut : cutAtLast ']' t with
        | some p =>
          obtain ⟨a, b⟩ := p
          rw [hcut] at hm
          have hteq : t = a ++ ']' :: b := cutAtLast_eq ']' t a b hcut
          rcases List.mem_cons.mp hm with rfl | hm2
          · refine ⟨[], b, ?_⟩
            rw [hteq, hc]
            simp
          · have hsub := ih b m hm2
            have : c :: t = (c :: a ++ [']']) ++ b := by
              rw [hteq]
              simp
            rw [this]
            exact subseg_append_right _ hsub
        | none =>
          rw [hcut] at hm
          exact subseg_append_right [c] (ih t m hm)
      · rw [if_neg hc] at hm
        by_cases hc2 : c = '\x7b'
        · rw [if_pos hc2] at hm
          cases hcut : cutAtLast '\x7d' t with
          | some p =>
            obtain ⟨a, b⟩ := p
            rw [hcut] at hm
            have hteq : t = a ++ '\x7d' :: b := cutAtLast_eq '\x7d' t a b hcut
            rcases List.mem_cons.mp hm with rfl | hm2
            · refine ⟨[], b, ?_⟩
              rw [hteq, hc2]
              simp
            · have hsub := ih b m hm2
              have : c :: t = (c :: a ++ ['\x7d']) ++ b := by
                rw [hteq]
                simp
              rw [this]
              exact subseg_append_right _ hsub
          | none =>
            rw [hcut] at hm
            exact subseg_append_right [c] (ih t m hm)
        · rw [if_neg hc2] at hm
          exact subseg_append_right [c] (ih t m hm)

theorem loads_of_subseg_fail {content m : List Char}
    (hall : allSubsFail content = true) (hsub : subseg m content) :
    loads m = none := by
  obtain ⟨s, t, rfl⟩ := hsub
  have hm : m = ((s ++ m ++ t).drop s.length).take m.length := by
    rw [List.append_assoc, List.drop_left, List.take_left]
  have hi : s.length < (s ++ m ++ t).length + 1 := by simp; omega
  have hj : m.length < (s ++ m ++ t).length + 1 := by simp; omega
  have h1 := List.all_eq_true.mp hall s.length (List.mem_range.mpr hi)
  have h2 := List.all_eq_true.mp h1 m.length (List.mem_range.mpr hj)
  rw [← hm] at h2
  exact Option.isNone_iff_eq_none.mp h2

/-- When nothing in the content parses, the cascade lands in its
nothing-recovered branch carrying the raw content. -/
theorem extract_malformed_of_allfail {content : List Char}
    (h : allSubsFail content = true) :
    extract content = .malformed content := by
  have hload : loads content = none :=
    loads_of_subseg_fail h ⟨[], [], by simp⟩
  have hdata : extractData content = none := by
    unfold extractData
    cases hs : search1 content with
    | none => exact hload
    | some p =>
      obtain ⟨b, m, a⟩ := p
      have hcm := search1_parts content b m a hs
      have hm : loads m = none := loads_of_subseg_fail h ⟨b, a, hcm⟩
      show (match loads m with
            | some v => some v
            | none => loads content) = none
      rw [hm]
      exact hload
  have hscan : ∀ ms : List (List Char), (∀ m ∈ ms, subseg m content) →
      fallbackScan ms = none := by
    intro ms
    induction ms with
    | nil => intro _; rfl
    | cons m t ih =>
      intro hms
      rw [fallbackScan, loads_of_subseg_fail h (hms m (by simp))]
      exact ih (fun x hx => hms x (by simp [hx]))
  unfold extract
  rw [show mainExtract content = .decodeFail from by
    unfold mainExtract; rw [hdata]]
  unfold fallbackResult
  rw [hscan (findall2 content)
    (fun m hm => findall2Go_infix content.length content m hm)]

/-! Boundary reasoning for substring occurrences across prompt pieces. -/
theorem suffix_last_mem {a p1 : List Char} {ch : Char} (hne : p1 ≠ [])
    (hsuf : ∃ s, a = s ++ p1) (hlast : a.getLast? = some ch) : ch ∈ p1 := by
  obtain ⟨s, rfl⟩ := hsuf
  rw [List.getLast?_append, List.getLast?_eq_getLast_of_ne_nil hne] at hlast
  have : p1.getLast hne = ch := by
    simpa [Option.or] using hlast
  rw [← this]
  exact List.getLast_mem hne

theorem pfx_head_mem {b p2 : List Char} {ch : Char} (hne : p2 ≠ [])
    (hpfx : ∃ t, b = p2 ++ t) (hhead : b.head? = some ch) : ch ∈ p2 := by
  obtain ⟨t, rfl⟩ := hpfx
  cases p2 with
  | nil => exact absurd rfl hne
  | cons d r =>
    simp only [List.cons_append, List.head?_cons, Option.some.injEq] at hhead
    rw [← hhead]
    exact List.mem_cons_self d r

/-- An occurrence of a newline-free needle in `a ++ s ++ b` with `a` ending
and `b` beginning in a newline must lie wholly within one of the pieces. -/
theorem subseg_three {p a s b : List Char} (hnl : '\n' ∉ p)
    (ha : a.getLast? = some '\n') (hb : b.head? = some '\n')
    (h : subseg p (a ++ s ++ b)) :
    subseg p a ∨ subseg p s ∨ subseg p b := by
  rcases subseg_append_cases h with h1 | h1 |
    ⟨p1, p2, rfl, hp1, hp2, hsa, hsb⟩
  · rcases subseg_append_cases h1 with h2 | h2 |
      ⟨p1, p2, rfl, hp1, hp2, hsa, hsb⟩
    · left; exact h2
    · right; left; exact h2
    · exact absurd (List.mem_append.mpr (Or.inl (suffix_last_mem hp1 hsa ha))) hnl
  · right; right; exact h1
  · exact absurd (List.mem_append.mpr (Or.inr (pfx_head_mem hp2 hsb hb))) hnl

theorem subsegB_false_not {p l : List Char} (h : subsegB p l = false) :
    ¬ subseg p l := fun hs => by
  rw [(subsegB_iff p l).mpr hs] at h
  cases h

theorem search1_of_alt1 {c : Char} {t m : List Char}
    (h : alt1Match (c :: t) = some m) :
    search1 (c :: t) = some ([], m, (c :: t).drop m.length) := by
  have hred : search1 (c :: t) =
      match alt1Match (c :: t) with
      | some m2 => some (([] : List Char), m2, (c :: t).drop m2.length)
      | none =>
        match alt2Match (c :: t) with
        | some m2 => some (([] : List Char), m2, (c :: t).drop m2.length)
        | none =>
          match search1 t with
          | some (b2, m2, a2) => some (c :: b2, m2, a2)
          | none => none := rfl
  rw [hred, h]

/-- C1 (amended).  For prose `p1` free of `[` and `\x7b`, prose `p2` free of
`]`, and a nonempty well-formed JSON array of objects, the JSON-recovery
cascade of `display_results` applied to `p1 ++ stringify X ++ p2` yields
exactly the elements of `X`.  (As originally stated, over arbitrary prose,
the claim is false: see the counterexample.) -/
theorem c1_extract_embedded (p1 p2 : List Char) (elems : List Json)
    (hp1 : ∀ c ∈ p1, c ≠ '[' ∧ c ≠ '\x7b')
    (hp2 : ∀ c ∈ p2, c ≠ ']')
    (hobj : ∀ v ∈ elems, ∃ kvs, v = Json.obj kvs)
    (hne : elems ≠ [])
    (hwf : wfJson (.arr elems) = true) :
    extract (p1 ++ stringify (.arr elems) ++ p2) = .ok elems := by
  have halt := alt1Match_of_array p2 hp2 elems hobj hne
  have hS : stringify (.arr elems) = '[' :: (strList elems ++ [']']) := by
    simp [stringify]
  have hcons : stringify (.arr elems) ++ p2 =
      '[' :: (strList elems ++ [']'] ++ p2) := by
    rw [hS]
    simp
  have halt2 : alt1Match ('[' :: (strList elems ++ [']'] ++ p2)) =
      some (stringify (.arr elems)) := by
    rw [← hcons]
    exact halt
  have hsrch := search1_of_alt1 halt2
  rw [← hcons, List.drop_left] at hsrch
  have hprose := search1_append_skip p1 hp1 (stringify (.arr elems) ++ p2)
  have hload : loads (stringify (.arr elems)) = some (.arr elems) :=
    loads_stringify _ hwf
  have hdata : extractData (p1 ++ stringify (.arr elems) ++ p2) =
      some (.arr elems) := by
    unfold extractData
    rw [List.append_assoc, hprose, hsrch]
    show (match loads (stringify (.arr elems)) with
          | some v => some v
          | none => loads (p1 ++ (stringify (.arr elems) ++ p2))) =
        some (.arr elems)
    rw [hload]
  have hmain : mainExtract (p1 ++ stringify (.arr elems) ++ p2) =
      .ok elems := by
    unfold mainExtract
    rw [hdata]
    rfl
  unfold extract
  rw [hmain]

/-- C1 witness: a concrete embedded product array is recovered exactly. -/
theorem c1_witness :
    extract ("Here are the results: ".toList ++
      stringify (.arr [Json.obj [("product_name".toList, .str "Foo".toList),
        ("product_price".toList, .num 12)]]) ++ " hope this helps!".toList) =
      .ok [Json.obj [("product_name".toList, .str "Foo".toList),
        ("product_price".toList, .num 12)]] :=
  c1_extract_embedded _ _ _ (by decide) (by decide)
    (fun v hv => by
      rw [List.mem_singleton] at hv
      exact ⟨_, hv⟩)
    (by simp) (by decide)

/-- C1 counterexample: with arbitrary prose the claim fails.  Trailing prose
containing a brace and a bracket extends the greedy match past the array,
every parse then fails, and the cascade ends with nothing recovered instead
of the array. -/
theorem c1_counterexample :
    extract ("see: ".toList ++
        stringify (.arr [Json.obj [("a".toList, .num 1)]]) ++ " \x7d ]".toList) =
      .malformed ("see: ".toList ++
        stringify (.arr [Json.obj [("a".toList, .num 1)]]) ++ " \x7d ]".toList) ∧
    extract ("see: ".toList ++
        stringify (.arr [Json.obj [("a".toList, .num 1)]]) ++ " \x7d ]".toList) ≠
      .ok [Json.obj [("a".toList, .num 1)]] := by
  refine ⟨by rfl, ?_⟩
  rw [show extract ("see: ".toList ++
      stringify (.arr [Json.obj [("a".toList, .num 1)]]) ++ " \x7d ]".toList) =
      .malformed ("see: ".toList ++
        stringify (.arr [Json.obj [("a".toList, .num 1)]]) ++ " \x7d ]".toList)
    from rfl]
  exact fun hcon => ExtractOutcome.noConfusion hcon

/-- C2 (amended).  For input text that is entirely valid JSON, the
extraction step returns exactly `json.loads` of the whole text provided the
first-pass regex either finds no match or matches the entire text.  (As
originally stated the claim is false: a bracketed substring inside a JSON
string literal can be matched and parsed instead; see the
counterexample.) -/
theorem c2_pure_json (content : List Char) (v : Json)
    (hj : loads content = some v)
    (hm : ∀ b m a, search1 content = some (b, m, a) → b = [] ∧ a = []) :
    extractData content = some v := by
  unfold extractData
  cases hs : search1 content with
  | none => exact hj
  | some p =>
    obtain ⟨b, m, a⟩ := p
    obtain ⟨rfl, rfl⟩ := hm b m a hs
    have hcm := search1_parts content [] m [] hs
    simp only [List.nil_append, List.append_nil] at hcm
    show (match loads m with
          | some v2 => some v2
          | none => loads content) = some v
    rw [← hcm, hj]

/-- C2 witness: pure JSON input whose first-pass match is the whole text. -/
theorem c2_witness :
    extractData "[\x7b\"a\": 1\x7d]".toList =
      some (.arr [.obj [("a".toList, .num 1)]]) :=
  c2_pure_json _ _ rfl (fun b m a h => by
    rw [show search1 "[\x7b\"a\": 1\x7d]".toList =
      some ([], "[\x7b\"a\": 1\x7d]".toList, []) from rfl,
      Option.some.injEq] at h
    simp only [Prod.mk.injEq] at h
    exact ⟨h.1.symm, h.2.2.symm⟩)

/-- C2 counterexample: the input is entirely valid JSON (an object whose
string value contains a bracketed span), yet the extraction step returns the
parse of the embedded regex match, not `json.loads` of the whole text. -/
theorem c2_counterexample :
    loads "\x7b\"x\": \"[\x7b\x7d]\"\x7d".toList =
      some (.obj [("x".toList, .str "[\x7b\x7d]".toList)]) ∧
    extractData "\x7b\"x\": \"[\x7b\x7d]\"\x7d".toList =
      some (.arr [.obj []]) ∧
    Json.arr [.obj []] ≠ Json.obj [("x".toList, .str "[\x7b\x7d]".toList)] :=
  ⟨rfl, rfl, fun hcon => Json.noConfusion hcon⟩

/-- C3 (confirmed).  For input in which no contiguous substring parses as
JSON, the cascade ends in the malformed-response outcome carrying the raw
text, and never in a recovered product list. -/
theorem c3_no_json_malformed (content : List Char)
    (h : allSubsFail content = true) :
    extract content = .malformed content ∧
    ∀ ps, extract content ≠ .ok ps ∧ extract content ≠ .fallbackOk ps := by
  have hm := extract_malformed_of_allfail h
  refine ⟨hm, fun ps => ⟨?_, ?_⟩⟩
  · rw [hm]
    exact fun hcon => ExtractOutcome.noConfusion hcon
  · rw [hm]
    exact fun hcon => ExtractOutcome.noConfusion hcon

/-- C3 witness: content with no parseable substring at all. -/
theorem c3_witness :
    extract "hi!".toList = .malformed "hi!".toList :=
  (c3_no_json_malformed "hi!".toList (by rfl)).1

/-- C4 (confirmed, modelled from the spec).  With three discovered URLs
where the per-URL extraction of URL 2 fails, the aggregate equals the
products of URL 1 followed by those of URL 3, in discovery order, with exactly one warning,
recorded for URL 2: the failure does not abort the later URL. -/
theorem c4_two_phase_merge (fetch : Nat → Except (List Char) (List Json))
    (u1 u2 u3 : Nat) (l1 l3 : List Json) (e : List Char)
    (h1 : fetch u1 = .ok l1) (h2 : fetch u2 = .error e)
    (h3 : fetch u3 = .ok l3) :
    two_phase_aggregate fetch [u1, u2, u3] = (l1 ++ l3, [(u2, e)]) := by
  simp [two_phase_aggregate, h1, h2, h3]

/-- C4 witness at a concrete failing middle URL. -/
theorem c4_witness :
    two_phase_aggregate
      (fun u => if u = 2 then .error "bad".toList
        else if u = 1 then .ok [Json.num 1] else .ok [Json.num 3])
      [1, 2, 3] = ([Json.num 1, Json.num 3], [(2, "bad".toList)]) :=
  c4_two_phase_merge _ 1 2 3 [Json.num 1] [Json.num 3] "bad".toList
    rfl rfl rfl

/-- C5 (confirmed).  Once an HTTP response with a non-success status has
been received, `query_perplexity` returns the error dict whose message
carries the decimal status code and the response body text; no exception is
modelled on this path because the function totally returns. -/
theorem c5_api_error (status : Nat) (body_json : Json) (text : List Char)
    (h : status ≠ 200) :
    ∃ msg, query_perplexity status body_json text =
        .obj [("error".toList, .str msg)] ∧
      subseg (natChars status) msg ∧ subseg text msg := by
  refine ⟨api_error_text status text, ?_, ?_, ?_⟩
  · unfold query_perplexity
    rw [if_neg h]
  · exact ⟨"API request failed with status code ".toList, ": ".toList ++ text,
      by simp [api_error_text]⟩
  · exact ⟨"API request failed with status code ".toList ++ natChars status ++
      ": ".toList, [], by simp [api_error_text]⟩

/-- C5 witness at status 404. -/
theorem c5_witness :
    ∃ msg, query_perplexity 404 Json.null "Not Found".toList =
        .obj [("error".toList, .str msg)] ∧
      subseg (natChars 404) msg ∧ subseg "Not Found".toList msg :=
  c5_api_error 404 Json.null "Not Found".toList (by decide)

/-- C6 (confirmed).  A response carrying an `error` key makes
`display_results` show the error (prefixed `Error: `, the message verbatim)
and return before any extraction: no product list, and the search history
is unchanged. -/
theorem c6_api_error_aborts (kvs : List (List Char × Json)) (e : Json)
    (he : jLookup kvs "error".toList = some e)
    (spec ts objv : List Char) (hist : List HistoryEntry) :
    display_results (.obj kvs) spec ts objv hist =
      (.apiError ("Error: ".toList ++ pyStr e), hist) := by
  unfold display_results
  rw [show errorValue (.obj kvs) = jLookup kvs "error".toList from rfl, he]

/-- C6 witness at a concrete error envelope. -/
theorem c6_witness :
    display_results (.obj [("error".toList, .str "boom".toList)])
      "spec".toList "ts".toList "none".toList [] =
      (.apiError ("Error: ".toList ++ pyStr (.str "boom".toList)), []) :=
  c6_api_error_aborts [("error".toList, .str "boom".toList)]
    (.str "boom".toList) rfl "spec".toList "ts".toList "none".toList []

/-- C7 (amended).  A history entry is appended exactly when the outcome is
the displayed product list of the main path, and every run leaves the prior
history intact as a prefix; in particular the fallback path, even when it
recovers a nonempty list, appends nothing (see the counterexample to the
original claim). -/
theorem c7_history_append (r : Json) (spec ts objv : List Char)
    (hist : List HistoryEntry) :
    ((display_results r spec ts objv hist).2 =
      match (display_results r spec ts objv hist).1 with
      | .displayed ps => hist ++ [⟨ts, spec, objv, ps⟩]
      | _ => hist) ∧
    ∃ tail, (display_results r spec ts objv hist).2 = hist ++ tail := by
  cases he : errorValue r with
  | some e =>
    have hd : display_results r spec ts objv hist =
        (.apiError ("Error: ".toList ++ pyStr e), hist) := by
      unfold display_results
      rw [he]
    rw [hd]
    exact ⟨rfl, [], by simp⟩
  | none =>
    cases hc : getContent r with
    | none =>
      have hd : display_results r spec ts objv hist =
          (.processError r, hist) := by
        unfold display_results
        rw [he, hc]
      rw [hd]
      exact ⟨rfl, [], by simp⟩
    | some content =>
      have hd0 : display_results r spec ts objv hist =
          (match extract content with
           | .ok ps => (.displayed ps, hist ++ [⟨ts, spec, objv, ps⟩])
           | .shapeError v => (.shapeErr v, hist)
           | .fallbackOk ps => (.fallbackFound ps, hist)
           | .malformed c => (.malformedShown c, hist)) := by
        unfold display_results
        rw [he, hc]
      cases hx : extract content with
      | ok ps =>
        rw [hd0, hx]
        exact ⟨rfl, [⟨ts, spec, objv, ps⟩], rfl⟩
      | shapeError v =>
        rw [hd0, hx]
        exact ⟨rfl, [], by simp⟩
      | fallbackOk ps =>
        rw [hd0, hx]
        exact ⟨rfl, [], by simp⟩
      | malformed c =>
        rw [hd0, hx]
        exact ⟨rfl, [], by simp⟩

/-- C7 counterexample: the fallback path recovers a nonempty product list
("Found a list of 2 products! Displaying results..." is announced at source
line 384), yet no history entry is appended. -/
theorem c7_counterexample :
    extract "x[1, 2]x".toList = .fallbackOk [.num 1, .num 2] ∧
    (display_results
      (.obj [("choices".toList, .arr [.obj [("message".toList,
        .obj [("content".toList, .str "x[1, 2]x".toList)])]])])
      "spec".toList "ts".toList "none".toList []).2 = [] :=
  ⟨rfl, rfl⟩

set_option maxRecDepth 16384 in
/-- C8 (amended).  For every specification string, the `kg`-objective prompt
contains the literal price-per-kilogram instruction and the `price_per_kg`
schema key; the `none`-objective prompt contains neither, provided the
specification itself contains neither (the specification is interpolated
into the prompt, so a specification mentioning them defeats the original
unconditional claim — see the counterexample).  The domain set does not
appear in the prompt at all. -/
theorem c8_prompt_objectives :
    (∀ spec cu,
      subsegB kgInstr (generate_prompt spec "kg".toList cu) = true ∧
      subsegB kgKey (generate_prompt spec "kg".toList cu) = true) ∧
    (∀ spec cu, subsegB kgInstr spec = false → subsegB kgKey spec = false →
      subsegB kgInstr (generate_prompt spec "none".toList cu) = false ∧
      subsegB kgKey (generate_prompt spec "none".toList cu) = false) := by
  constructor
  · intro spec cu
    have hform : generate_prompt spec "kg".toList cu =
        promptHeader ++ spec ++ promptGuidelines ++
          "\n5. Calculate and include price per kilogram for each product".toList ++
          promptSchemaHead ++ "\n    \"price_per_".toList ++ "kg".toList ++
          "\": 9.99,".toList ++ promptTail := rfl
    constructor
    · rw [hform]
      apply (subsegB_iff _ _).mpr
      apply subseg_append_left
      apply subseg_append_left
      apply subseg_append_left
      apply subseg_append_left
      apply subseg_append_left
      apply subseg_append_right
      exact (subsegB_iff _ _).mp (by decide)
    · rw [hform]
      apply (subsegB_iff _ _).mpr
      apply subseg_append_left
      apply subseg_append_left
      rw [List.append_assoc]
      apply subseg_append_right
      exact (subsegB_iff _ _).mp (by decide)
  · intro spec cu h1 h2
    have hform : generate_prompt spec "none".toList cu =
        promptHeader ++ spec ++ promptGuidelines ++ promptSchemaHead ++
          promptTail := rfl
    have hregroup : promptHeader ++ spec ++ promptGuidelines ++
        promptSchemaHead ++ promptTail =
        (promptHeader ++ spec) ++
          (promptGuidelines ++ (promptSchemaHead ++ promptTail)) := by
      simp only [List.append_assoc]
    have hH : promptHeader.getLast? = some '\n' := by decide
    have hB : (promptGuidelines ++ (promptSchemaHead ++ promptTail)).head? =
        some '\n' := by decide
    have key : ∀ p : List Char, '\n' ∉ p →
        subsegB p promptHeader = false →
        subsegB p (promptGuidelines ++ (promptSchemaHead ++ promptTail)) = false →
        subsegB p spec = false →
        subsegB p (generate_prompt spec "none".toList cu) = false := by
      intro p hnl hh ht hs
      rw [hform, hregroup]
      cases hb : subsegB p ((promptHeader ++ spec) ++
          (promptGuidelines ++ (promptSchemaHead ++ promptTail))) with
      | false => rfl
      | true =>
        exfalso
        have hsub := (subsegB_iff _ _).mp hb
        rcases subseg_three hnl hH hB hsub with hcase | hcase | hcase
        · rw [(subsegB_iff _ _).mpr hcase] at hh
          cases hh
        · rw [(subsegB_iff _ _).mpr hcase] at hs
          cases hs
        · rw [(subsegB_iff _ _).mpr hcase] at ht
          cases ht
    exact ⟨key kgInstr (by decide) (by decide) (by decide) h1,
      key kgKey (by decide) (by decide) (by decide) h2⟩

set_option maxRecDepth 16384 in
/-- C8 counterexample: a specification string that itself contains
`price_per_kg` makes the `none`-objective prompt contain it, refuting the
original unconditional claim. -/
theorem c8_counterexample :
    subsegB "price_per_kg".toList
      (generate_prompt "Find price_per_kg for flour".toList
        "none".toList none) = true := by decide

set_option maxRecDepth 16384 in
/-- C8 witness at concrete specifications. -/
theorem c8_witness :
    (subsegB kgInstr (generate_prompt "10kg flour".toList "kg".toList none) = true ∧
     subsegB kgKey (generate_prompt "10kg flour".toList "kg".toList none) = true) ∧
    (subsegB kgInstr (generate_prompt "flour".toList "none".toList none) = false ∧
     subsegB kgKey (generate_prompt "flour".toList "none".toList none) = false) :=
  ⟨c8_prompt_objectives.1 "10kg flour".toList none,
   c8_prompt_objectives.2 "flour".toList none (by decide) (by decide)⟩

/-- C9 (amended).  Rendering a product never crashes on an absent field
(the rendering functions are total), and each of the seven always-rendered
fields shows its explicit placeholder when absent; the per-unit price field
however is omitted entirely when absent — no placeholder is shown for it
(see the counterexample to the original claim, which also listed it). -/
theorem c9_render_placeholders (p : List (List Char × Json)) (objv : List Char) :
    (jLookup p "provider".toList = none →
      (renderProduct objv p).providerLine = "**Provider:** N/A".toList) ∧
    (jLookup p "provider_website".toList = none →
      (renderProduct objv p).websiteLine = "**Website:** N/A".toList) ∧
    (jLookup p "product_name".toList = none →
      (renderProduct objv p).shownName = "Unknown Product".toList) ∧
    (jLookup p "product_sku".toList = none →
      (renderProduct objv p).skuLine = "**SKU/ID:** N/A".toList) ∧
    (jLookup p "product_price".toList = none →
      (renderProduct objv p).shownPrice = "N/A".toList) ∧
    (jLookup p "product_properties".toList = none →
      (renderProduct objv p).propsSection = .noProps) ∧
    (jLookup p "evaluation".toList = none →
      (renderProduct objv p).shownEvaluation = "No evaluation available.".toList) ∧
    (jLookup p (pricePerKey objv) = none →
      (renderProduct objv p).pricePerLine = none ∧
      (renderProduct objv p).titlePricePer = none) := by
  refine ⟨?_, ?_, ?_, ?_, ?_, ?_, ?_, ?_⟩
  · intro h
    show "**Provider:** ".toList ++
      pyStr ((jLookup p "provider".toList).getD (.str "N/A".toList)) =
      "**Provider:** N/A".toList
    rw [h]
    rfl
  · intro h
    show "**Website:** ".toList ++
      pyStr ((jLookup p "provider_website".toList).getD (.str "N/A".toList)) =
      "**Website:** N/A".toList
    rw [h]
    rfl
  · intro h
    show pyStr ((jLookup p "product_name".toList).getD
      (.str "Unknown Product".toList)) = "Unknown Product".toList
    rw [h]
    rfl
  · intro h
    show "**SKU/ID:** ".toList ++
      pyStr ((jLookup p "product_sku".toList).getD (.str "N/A".toList)) =
      "**SKU/ID:** N/A".toList
    rw [h]
    rfl
  · intro h
    show pyStr ((jLookup p "product_price".toList).getD
      (.str "N/A".toList)) = "N/A".toList
    rw [h]
    rfl
  · intro h
    show (match (jLookup p "product_properties".toList).getD (.obj []) with
          | .obj [] => PropsRender.noProps
          | .obj kvs => PropsRender.propLines
              (kvs.map fun kv => "**".toList ++ kv.1 ++ ":** ".toList ++ pyStr kv.2)
          | v => if pyTruthy v then PropsRender.typeErr v else PropsRender.noProps) =
        PropsRender.noProps
    rw [h]
    rfl
  · intro h
    show pyStr ((jLookup p "evaluation".toList).getD
      (.str "No evaluation available.".toList)) =
      "No evaluation available.".toList
    rw [h]
    rfl
  · intro h
    by_cases hn : objv = "none".toList
    · constructor
      · show (if objv = "none".toList then none
          else match jLookup p (pricePerKey objv) with
            | some v => some ("**Price per ".toList ++ pyCapitalize objv ++
                ":** €".toList ++ pyStr v ++ unit_display objv p)
            | none => none) = none
        rw [if_pos hn]
      · show (if objv = "none".toList then none
          else match jLookup p (pricePerKey objv) with
            | some v => some (" (€".toList ++ pyStr v ++ unit_display objv p ++
                ")".toList)
            | none => none) = none
        rw [if_pos hn]
    · constructor
      · show (if objv = "none".toList then none
          else match jLookup p (pricePerKey objv) with
            | some v => some ("**Price per ".toList ++ pyCapitalize objv ++
                ":** €".toList ++ pyStr v ++ unit_display objv p)
            | none => none) = none
        rw [if_neg hn, h]
      · show (if objv = "none".toList then none
          else match jLookup p (pricePerKey objv) with
            | some v => some (" (€".toList ++ pyStr v ++ unit_display objv p ++
                ")".toList)
            | none => none) = none
        rw [if_neg hn, h]

/-- C9 counterexample: with objective `kg` and the per-unit price field
absent, nothing at all is rendered for it — no per-unit line, no per-unit
segment in the title — rather than an explicit placeholder. -/
theorem c9_counterexample :
    (renderProduct "kg".toList []).pricePerLine = none ∧
    (renderProduct "kg".toList []).titlePricePer = none ∧
    productTitle 0 "kg".toList [] = "1. Unknown Product - €N/A".toList :=
  ⟨rfl, rfl, rfl⟩

/-- C9 witness at the empty product record. -/
theorem c9_witness :
    (renderProduct "kg".toList []).providerLine = "**Provider:** N/A".toList ∧
    (renderProduct "kg".toList []).shownEvaluation =
      "No evaluation available.".toList ∧
    (renderProduct "kg".toList []).pricePerLine = none :=
  ⟨(c9_render_placeholders [] "kg".toList).1 rfl,
   (c9_render_placeholders [] "kg".toList).2.2.2.2.2.2.1 rfl,
   ((c9_render_placeholders [] "kg".toList).2.2.2.2.2.2.2 rfl).1⟩

/-- C10 (confirmed).  When every domain currently in the search-domain set
is deselected, the active list is empty and the search is issued with the
full fixed default domain list, after warning the user (the Bool). -/
theorem c10_empty_domains_default (sd : List (List Char))
    (session_get : List Char → Option Bool)
    (h : ∀ d ∈ sd, session_get ("domain_".toList ++ d) = some false) :
    chosen_domains sd session_get = (true, default_domains) := by
  have ha : active_domains sd session_get = [] := by
    unfold active_domains
    rw [List.filter_eq_nil_iff]
    intro d hd
    rw [h d hd]
    simp
  unfold chosen_domains
  rw [ha]

/-- C10 witness: all six default domains deselected. -/
theorem c10_witness :
    chosen_domains default_domains (fun _ => some false) =
      (true, default_domains) :=
  c10_empty_domains_default default_domains (fun _ => some false)
    (fun _ _ => rfl)
